import Mathlib

set_option maxHeartbeats 1000000
set_option maxRecDepth 4000

/-!
Verification development for the HeyMath report runner
(`test_runner_all.py`).  Python values that can appear in a decoded JSON
payload are modelled by the inductive type `Json` below; Python `None` is
`Json.null` (in Python the two coincide: `json.loads "null"` *is* `None`).
JSON numbers are modelled as integers (the reports under scrutiny only use
integral numbers; floating point is outside the embedding).
-/

namespace HeyMathPortal

inductive Json where
  | null : Json
  | bool : Bool → Json
  | num : Int → Json
  | str : String → Json
  | arr : List Json → Json
  | obj : List (String × Json) → Json

/-- The double-quote character, written numerically. -/
def quoteChar : Char := Char.ofNat 34

/-- The backslash character, written numerically. -/
def backslashChar : Char := Char.ofNat 92

/-- JSON inter-token whitespace. -/
def isJsonWs (c : Char) : Bool :=
  c == ' ' || c == Char.ofNat 9 || c == Char.ofNat 10 || c == Char.ofNat 13

def skipWs (cs : List Char) : List Char := cs.dropWhile isJsonWs

theorem skipWs_length_le (cs : List Char) : (skipWs cs).length ≤ cs.length := by
  induction cs with
  | nil => simp [skipWs]
  | cons c rest ih =>
    simp only [skipWs, List.dropWhile] at *
    split
    · simp only [List.length_cons]; omega
    · simp

/-- Value of a hex digit, if any (for the \uXXXX escape of JSON strings). -/
def hexVal (c : Char) : Option Nat :=
  if '0' ≤ c ∧ c ≤ '9' then some (c.toNat - 48)
  else if 'a' ≤ c ∧ c ≤ 'f' then some (c.toNat - 87)
  else if 'A' ≤ c ∧ c ≤ 'F' then some (c.toNat - 55)
  else none

/-- Single-character JSON string escapes. -/
def escChar (c : Char) : Option Char :=
  if c = quoteChar then some quoteChar
  else if c = backslashChar then some backslashChar
  else if c = '/' then some '/'
  else if c = 'b' then some (Char.ofNat 8)
  else if c = 'f' then some (Char.ofNat 12)
  else if c = 'n' then some (Char.ofNat 10)
  else if c = 'r' then some (Char.ofNat 13)
  else if c = 't' then some (Char.ofNat 9)
  else none

/-- Body of a JSON string literal after its opening quote: returns the decoded
characters and the input remaining after the closing quote.  Models the string
scanning done by Python `json.loads` (surrogate pairs are not recombined). -/
def parseStrBody : List Char → Option (List Char × List Char)
  | [] => none
  | c :: rest =>
    if c = quoteChar then some ([], rest)
    else if c = backslashChar then
      match rest with
      | [] => none
      | e :: rest2 =>
        if e = 'u' then
          match rest2 with
          | h1 :: h2 :: h3 :: h4 :: rest3 =>
            match hexVal h1, hexVal h2, hexVal h3, hexVal h4 with
            | some a, some b, some c2, some d =>
              (parseStrBody rest3).map
                (fun p => (Char.ofNat (((a * 16 + b) * 16 + c2) * 16 + d) :: p.1, p.2))
            | _, _, _, _ => none
          | _ => none
        else
          match escChar e with
          | some d => (parseStrBody rest2).map (fun p => (d :: p.1, p.2))
          | none => none
    else if c.toNat < 32 then none
    else (parseStrBody rest).map (fun p => (c :: p.1, p.2))

/-- The decoded content of a string literal is no longer than its source. -/
theorem parseStrBody_length :
    ∀ n cs t r, cs.length ≤ n → parseStrBody cs = some (t, r) → t.length ≤ cs.length := by
  intro n
  induction n with
  | zero =>
    intro cs t r hlen h
    cases cs with
    | nil => simp [parseStrBody] at h
    | cons c rest => simp only [List.length_cons] at hlen; omega
  | succ n ih =>
    intro cs t r hlen h
    cases cs with
    | nil => simp [parseStrBody] at h
    | cons c rest =>
      simp only [List.length_cons] at hlen
      unfold parseStrBody at h
      repeat' split at h
      all_goals
        first
        | exact Option.noConfusion h
        | (injection h with h1
           injection h1 with ha hb
           subst ha
           simp)
        | (rw [Option.map_eq_some'] at h
           obtain ⟨⟨p1, p2⟩, hp, hpe⟩ := h
           injection hpe with h1 h2
           subst h1
           have hrec := ih _ p1 p2 (by try simp only [List.length_cons] at hlen
                                       omega) hp
           try simp only [List.length_cons] at *
           omega)

def digitVal (c : Char) : Nat := c.toNat - 48

def natOfDigits (ds : List Char) : Nat := ds.foldl (fun a c => a * 10 + digitVal c) 0

/-- Integer body of a JSON number (no leading zeros, as in strict JSON).
Fractional and exponent parts are not modelled: a payload containing a
non-integral number makes `loads` fail, a conservative under-approximation. -/
def parseNumTail (cs : List Char) : Option (Nat × List Char) :=
  let ds := cs.takeWhile (fun c => c.isDigit)
  let rest := cs.dropWhile (fun c => c.isDigit)
  match ds with
  | [] => none
  | [d] => some (digitVal d, rest)
  | d :: _ :: _ => if d = '0' then none else some (natOfDigits ds, rest)

def parseNum : List Char → Option (Int × List Char)
  | [] => none
  | c :: rest =>
    if c = '-' then (parseNumTail rest).map (fun p => (-(p.1 : Int), p.2))
    else (parseNumTail (c :: rest)).map (fun p => ((p.1 : Int), p.2))

/-- Python dict assignment on an association list: replace the value of an
existing key in place, else append the pair at the end. -/
def objInsert : List (String × Json) → String → Json → List (String × Json)
  | [], k, v => [(k, v)]
  | (k2, v2) :: rest, k, v =>
    if k2 = k then (k, v) :: rest else (k2, v2) :: objInsert rest k v

/-- Build a Python dict from parsed key/value pairs (duplicate keys keep the
first position but the last value, as `json.loads` does). -/
def objFromPairs (ps : List (String × Json)) : List (String × Json) :=
  ps.foldl (fun acc p => objInsert acc p.1 p.2) []

/-- Consume an expected literal character sequence. -/
def expectLit : List Char → List Char → Option (List Char)
  | [], cs => some cs
  | _ :: _, [] => none
  | l :: ls, c :: cs => if c = l then expectLit ls cs else none

/-- Consume one expected character. -/
def stripHead (c : Char) : List Char → Option (List Char)
  | [] => none
  | c2 :: rest => if c2 = c then some rest else none

structure Parsers where
  v : List Char → Option (Json × List Char)
  e : List Char → Option (List Json × List Char)
  f : List Char → Option (List (String × Json) × List Char)

/-- Body of the JSON value parser.  The array-element parser `pe` and the
object-member parser `pf` of the next-lower fuel level are supplied as
arguments, which keeps the whole parser structurally recursive on fuel. -/
def parseValBody (pe : List Char → Option (List Json × List Char))
    (pf : List Char → Option (List (String × Json) × List Char)) :
    List Char → Option (Json × List Char)
  | [] => none
  | c :: rest =>
    if c = quoteChar then
      (parseStrBody rest).map (fun p => (Json.str (String.mk p.1), p.2))
    else if c = '[' then
      match stripHead ']' (skipWs rest) with
      | some r2 => some (Json.arr [], r2)
      | none => (pe (skipWs rest)).map (fun p => (Json.arr p.1, p.2))
    else if c = '{' then
      match stripHead '}' (skipWs rest) with
      | some r2 => some (Json.obj [], r2)
      | none => (pf (skipWs rest)).map (fun p => (Json.obj (objFromPairs p.1), p.2))
    else if c = 't' then (expectLit ['r', 'u', 'e'] rest).map (fun r2 => (Json.bool true, r2))
    else if c = 'f' then (expectLit ['a', 'l', 's', 'e'] rest).map (fun r2 => (Json.bool false, r2))
    else if c = 'n' then (expectLit ['u', 'l', 'l'] rest).map (fun r2 => (Json.null, r2))
    else
      (parseNum (c :: rest)).map (fun p => (Json.num p.1, p.2))

/-- One or more comma-separated array elements followed by the closing
bracket; `pv` parses one element, `peTail` the remaining elements. -/
def parseElemsBody (pv : List Char → Option (Json × List Char))
    (peTail : List Char → Option (List Json × List Char))
    (cs : List Char) : Option (List Json × List Char) :=
  match pv (skipWs cs) with
  | none => none
  | some (v, r) =>
    match skipWs r with
    | ']' :: r2 => some ([v], r2)
    | ',' :: r2 =>
      match peTail r2 with
      | none => none
      | some (vs, r3) => some (v :: vs, r3)
    | _ => none

/-- One or more comma-separated object members followed by the closing brace. -/
def parseFieldsBody (pv : List Char → Option (Json × List Char))
    (pfTail : List Char → Option (List (String × Json) × List Char))
    (cs : List Char) : Option (List (String × Json) × List Char) :=
  match skipWs cs with
  | [] => none
  | c :: rest =>
    if c = quoteChar then
      match parseStrBody rest with
      | none => none
      | some (kcs, r1) =>
        match skipWs r1 with
        | ':' :: r2 =>
          match pv (skipWs r2) with
          | none => none
          | some (v, r3) =>
            match skipWs r3 with
            | '}' :: r4 => some ([(String.mk kcs, v)], r4)
            | ',' :: r4 =>
              match pfTail r4 with
              | none => none
              | some (fs, r5) => some ((String.mk kcs, v) :: fs, r5)
            | _ => none
        | _ => none
    else none

/-- The value, array-element and object-member parsers at each fuel level.
Structural recursion on fuel, so the kernel can evaluate the parser. -/
def parsersAux : Nat → Parsers
  | 0 => ⟨fun _ => none, fun _ => none, fun _ => none⟩
  | Nat.succ fuel =>
    let prev := parsersAux fuel
    let pv := parseValBody prev.e prev.f
    ⟨pv, parseElemsBody pv prev.e, parseFieldsBody pv prev.f⟩

def parseVal (fuel : Nat) (cs : List Char) : Option (Json × List Char) :=
  (parsersAux fuel).v cs

/-- Model of Python `json.loads`: parse one JSON value surrounded by optional
whitespace; anything else (trailing garbage, malformed input) raises
`JSONDecodeError`, modelled as `none`. -/
def loads (s : String) : Option Json :=
  match parseVal (s.length + 1) (skipWs s.data) with
  | some (v, rest) => if skipWs rest = [] then some v else none
  | none => none

theorem parseValBody_str_inv (pe : List Char → Option (List Json × List Char))
    (pf : List Char → Option (List (String × Json) × List Char))
    (cs : List Char) (t : String) (r : List Char)
    (h : parseValBody pe pf cs = some (Json.str t, r)) :
    ∃ body tl, cs = quoteChar :: body ∧ parseStrBody body = some (tl, r) ∧ t = String.mk tl := by
  cases cs with
  | nil => simp [parseValBody] at h
  | cons c rest =>
    unfold parseValBody at h
    repeat' split at h
    all_goals
      first
      | exact Option.noConfusion h
      | (exfalso
         injection h with h1
         injection h1 with ha hb
         exact Json.noConfusion ha)
      | (rw [Option.map_eq_some'] at h
         obtain ⟨p, hp, hpe⟩ := h
         injection hpe with h1 h2
         first
         | (exfalso; exact Json.noConfusion h1)
         | (injection h1 with h1s
            refine ⟨_, p.1, ?_, by rw [← h2, Prod.mk.eta]; exact hp, h1s.symm⟩
            simp_all))

theorem parseVal_str_inv (fuel : Nat) (cs : List Char) (t : String) (r : List Char)
    (h : parseVal fuel cs = some (Json.str t, r)) :
    ∃ body tl, cs = quoteChar :: body ∧ parseStrBody body = some (tl, r) ∧ t = String.mk tl := by
  cases fuel with
  | zero => simp [parseVal, parsersAux] at h
  | succ f =>
    rw [parseVal, parsersAux] at h
    exact parseValBody_str_inv _ _ _ _ _ h

theorem loads_str_shrink : ∀ s t, loads s = some (Json.str t) → t.length < s.length := by
  intro s t h
  unfold loads at h
  cases hp : parseVal (s.length + 1) (skipWs s.data) with
  | none => rw [hp] at h; exact Option.noConfusion h
  | some p =>
    obtain ⟨v, rest⟩ := p
    rw [hp] at h
    split at h
    case h_2 heq => exact Option.noConfusion heq
    case h_1 v2 rest2 heq =>
    injection heq with hpair
    injection hpair with hv hr
    subst hv
    subst hr
    split at h
    case isFalse => exact Option.noConfusion h
    case isTrue =>
    injection h with h1
    subst h1
    obtain ⟨body, tl, hcs, hbody, ht⟩ := parseVal_str_inv _ _ _ _ hp
    have h1len : tl.length ≤ body.length :=
      parseStrBody_length body.length body tl rest le_rfl hbody
    have h2len : (skipWs s.data).length ≤ s.data.length := skipWs_length_le _
    rw [hcs] at h2len
    have hs : s.length = s.data.length := rfl
    have ht2 : t.length = tl.length := by rw [ht]; rfl
    simp only [List.length_cons] at h2len
    omega

def jstrSize : Json → Nat
  | Json.str s => s.length + 1
  | _ => 0

/-- One bounded unfolding of the `decode_maybe_json` while loop. -/
def decodeAux : Nat → Json → Json
  | 0, v => v
  | Nat.succ fuel, v =>
    match v with
    | Json.str s =>
      match loads s with
      | some w => decodeAux fuel w
      | none => Json.str s
    | w => w

/-- Model of `decode_maybe_json` (test_runner_all.py, lines 80-87): while the
value is a string, try `json.loads` on it; stop at the first non-string value
or at the first string that fails to parse.  The fuel `jstrSize v + 1` always
suffices because a decoded string is strictly shorter than its source
(`loads_str_shrink`), so `decodeAux` implements the unbounded while loop
(`decodeAux_invariant` below makes that precise). -/
def decode_maybe_json (v : Json) : Json := decodeAux (jstrSize v + 1) v

theorem jstrSize_loads_lt (s : String) (w : Json) (h : loads s = some w) :
    jstrSize w < jstrSize (Json.str s) := by
  cases w with
  | str t =>
    have := loads_str_shrink s t h
    simp only [jstrSize]
    omega
  | null => simp [jstrSize]
  | bool b => simp [jstrSize]
  | num n => simp [jstrSize]
  | arr l => simp [jstrSize]
  | obj l => simp [jstrSize]

theorem decodeAux_invariant :
    ∀ n m v, jstrSize v < n → jstrSize v < m → decodeAux n v = decodeAux m v := by
  intro n
  induction n with
  | zero => intro m v hn; omega
  | succ n ih =>
    intro m v hn hm
    cases m with
    | zero => omega
    | succ m =>
      cases v with
      | str s =>
        cases hl : loads s with
        | none => simp only [decodeAux, hl]
        | some w =>
          simp only [decodeAux, hl]
          have hlt := jstrSize_loads_lt s w hl
          have hss : jstrSize (Json.str s) = s.length + 1 := rfl
          rw [hss] at hlt hn hm
          exact ih m w (by omega) (by omega)
      | null => rfl
      | bool b => rfl
      | num k => rfl
      | arr l => rfl
      | obj l => rfl

theorem decode_str_some (s : String) (w : Json) (h : loads s = some w) :
    decode_maybe_json (Json.str s) = decode_maybe_json w := by
  have hlt := jstrSize_loads_lt s w h
  have hs : jstrSize (Json.str s) = s.length + 1 := rfl
  rw [hs] at hlt
  show decodeAux (jstrSize (Json.str s) + 1) (Json.str s) = decodeAux (jstrSize w + 1) w
  rw [hs]
  simp only [decodeAux, h]
  exact decodeAux_invariant (s.length + 1) (jstrSize w + 1) w (by omega) (by omega)

theorem decode_str_none (s : String) (h : loads s = none) :
    decode_maybe_json (Json.str s) = Json.str s := by
  show decodeAux (jstrSize (Json.str s) + 1) (Json.str s) = Json.str s
  simp only [jstrSize, decodeAux, h]

theorem decode_nonstr : ∀ v : Json, (∀ s, v ≠ Json.str s) → decode_maybe_json v = v := by
  intro v hv
  cases v with
  | str s => exact absurd rfl (hv s)
  | null => rfl
  | bool b => rfl
  | num n => rfl
  | arr l => rfl
  | obj l => rfl

theorem decode_null : decode_maybe_json Json.null = Json.null := rfl

theorem decode_bool (b : Bool) : decode_maybe_json (Json.bool b) = Json.bool b := rfl

theorem decode_num (n : Int) : decode_maybe_json (Json.num n) = Json.num n := rfl

theorem decode_arr (l : List Json) : decode_maybe_json (Json.arr l) = Json.arr l := rfl

theorem decode_obj (l : List (String × Json)) :
    decode_maybe_json (Json.obj l) = Json.obj l := rfl

/-- `w` is reached from `v` by `n` rounds of JSON-string unwrapping:
`Wraps n core wrapped` says `wrapped` is `core` wrapped inside `n` layers of
JSON string encoding (each layer being a string that `loads` to the next). -/
inductive Wraps : Nat → Json → Json → Prop where
  | zero (v : Json) : Wraps 0 v v
  | succ (n : Nat) (v : Json) (s : String) (w : Json) :
      loads s = some w → Wraps n v w → Wraps (n + 1) v (Json.str s)

/-- First-match association-list lookup (Python dict indexing; dicts built by
`loads` have unique keys). -/
def alistGet {α : Type} : List (String × α) → String → Option α
  | [], _ => none
  | (k, v) :: rest, key => if k = key then some v else alistGet rest key

/-- Python `d.get(k, dflt)`. -/
def pyGetD (fields : List (String × Json)) (k : String) (dflt : Json) : Json :=
  (alistGet fields k).getD dflt

/-- Python `obj in (None, False)` under Python equality: `None == None`,
`False == False`, and also `0 == False` (numeric zero equals `False` in
Python), so a payload of `0` passes this test as well. -/
def pyInNoneFalse : Json → Bool
  | Json.null => true
  | Json.bool b => !b
  | Json.num n => n == 0
  | _ => false

/-- Python whitespace characters recognised by `str.strip()` (ASCII subset). -/
def pyIsSpace (c : Char) : Bool :=
  c == ' ' || c == Char.ofNat 9 || c == Char.ofNat 10 || c == Char.ofNat 13 ||
  c == Char.ofNat 11 || c == Char.ofNat 12

/-- Python `s.strip()`. -/
def pyStrip (s : String) : String :=
  String.mk (((s.data.dropWhile pyIsSpace).reverse.dropWhile pyIsSpace).reverse)

/-- The string half of the no-rows test:
`isinstance(obj, str) and obj.strip().lower() in ("false", "null", "")`. -/
def emptyStrMarker : Json → Bool
  | Json.str s =>
    let t := (pyStrip s).toLower
    t == "false" || t == "null" || t == ""
  | _ => false

def REPORT_NAME_SECTIONS : String := "Level Lessons Usage Report for each Class"

/-- The `EXTRACT_MAP` dict (test_runner_all.py, lines 349-370). -/
def EXTRACT_MAP : List (String × String) := [
  ("School Logins Report", "TABLE_DATA"),
  ("School Lessons Usage Report", "TABLE_DATA"),
  ("School Assignments Usage Report", "TABLE_DATA"),
  (REPORT_NAME_SECTIONS, "TABLE_DATA"),
  ("Teacher Assignment Log Quiz", "direct_list"),
  ("Teacher Assignment Log Worksheet", "direct_list"),
  ("Teacher Assignment Log Prasso", "direct_list"),
  ("Teacher Assignment Log Reading", "direct_list"),
  ("All Teachers Usage Logins", "direct_list"),
  ("All Teachers Usage Lesson Accessed", "lessoninfo"),
  ("All Teachers Usage Assignments assigned", "tableJSON"),
  ("Class Login Report", "data"),
  ("Class Lessons Report", "direct_list"),
  ("Class Assignment Report", "data"),
  ("Student Quiz Performance Report", "data")]

/-- The alias keys tried when the expected key is missing. -/
def ALIAS_KEYS : List String := ["data", "TABLE_DATA", "tableData", "tableJSON", "lessoninfo"]

/-- First alias key present in the object, in `ALIAS_KEYS` order. -/
def firstAlias (fields : List (String × Json)) : Option String :=
  ALIAS_KEYS.find? (fun k => (alistGet fields k).isSome)

/-- Model of `extract_values` (test_runner_all.py, lines 179-208). -/
def extract_values (report_name : String) (response_obj : Json) : Json :=
  match alistGet EXTRACT_MAP report_name with
  | none => Json.null
  | some mode =>
    let obj := decode_maybe_json response_obj
    if pyInNoneFalse obj || emptyStrMarker obj then Json.arr []
    else if mode = "direct_list" then
      match obj with
      | Json.arr xs => Json.arr xs
      | Json.obj fields =>
        match firstAlias fields with
        | some k => decode_maybe_json (pyGetD fields k Json.null)
        | none => Json.null
      | _ => Json.null
    else
      match obj with
      | Json.obj fields =>
        let mode2 := if (alistGet fields mode).isSome then mode
                     else (firstAlias fields).getD mode
        decode_maybe_json (pyGetD fields mode2 Json.null)
      | _ => Json.null

/-- Accumulate the union of row keys, keeping first-seen order (Python uses a
`set`, whose iteration order is unspecified; theorems below only use
order-independent facts about this list). -/
def keysUnion (acc : List String) (ks : List String) : List String :=
  ks.foldl (fun a k => if k ∈ a then a else a ++ [k]) acc

def ensureGo : List Json → List String → List (List (String × Json)) →
    Option (List String × List (List (String × Json)))
  | [], accK, accR => some (accK, accR.reverse)
  | Json.obj fields :: rest, accK, accR =>
      ensureGo rest (keysUnion accK (fields.map Prod.fst)) (fields :: accR)
  | _ :: _, _, _ => none

/-- Model of `ensure_rows` (test_runner_all.py, lines 210-221): validate a
list of dict rows, returning the union of their keys and the rows. -/
def ensure_rows (values : Json) : Option (List String × List (List (String × Json))) :=
  match values with
  | Json.arr rows => ensureGo rows [] []
  | _ => none

/-- Python `s.replace("||", " ")`: left-to-right, non-overlapping. -/
def replaceDoublePipes : List Char → List Char
  | [] => []
  | [c] => [c]
  | c :: c2 :: rest =>
    if c = '|' ∧ c2 = '|' then ' ' :: replaceDoublePipes rest
    else c :: replaceDoublePipes (c2 :: rest)
termination_by cs => cs.length
decreasing_by all_goals simp only [List.length_cons]; omega

/-- Python `s.strip("|")`. -/
def stripPipe (cs : List Char) : List Char :=
  ((cs.dropWhile (fun c => c == '|')).reverse.dropWhile (fun c => c == '|')).reverse

/-- Model of `strip_double_pipes` (test_runner_all.py, lines 54-55). -/
def strip_double_pipes (s : String) : String :=
  String.mk (stripPipe (pyStrip (String.mk (replaceDoublePipes (pyStrip s).data))).data)

/-- Python `s.encode("latin-1")` (strict): fails when any char is above 255. -/
def latin1Encode (cs : List Char) : Option (List Nat) :=
  if cs.all (fun c => c.toNat < 256) then some (cs.map Char.toNat) else none

/-- Strict UTF-8 decoding of a byte list (RFC 3629: overlong forms,
surrogates and out-of-range code points are rejected). -/
def utf8Decode : List Nat → Option (List Char)
  | [] => some []
  | b :: rest =>
    if b < 128 then (utf8Decode rest).map (fun t => Char.ofNat b :: t)
    else if b < 192 then none
    else if b < 224 then
      match rest with
      | b2 :: rest2 =>
        if 128 ≤ b2 ∧ b2 < 192 then
          let code := (b - 192) * 64 + (b2 - 128)
          if 128 ≤ code then (utf8Decode rest2).map (fun t => Char.ofNat code :: t) else none
        else none
      | [] => none
    else if b < 240 then
      match rest with
      | b2 :: b3 :: rest2 =>
        if (128 ≤ b2 ∧ b2 < 192) ∧ (128 ≤ b3 ∧ b3 < 192) then
          let code := (b - 224) * 4096 + (b2 - 128) * 64 + (b3 - 128)
          if 2048 ≤ code ∧ ¬(55296 ≤ code ∧ code ≤ 57343) then
            (utf8Decode rest2).map (fun t => Char.ofNat code :: t)
          else none
        else none
      | _ => none
    else if b < 248 then
      match rest with
      | b2 :: b3 :: b4 :: rest2 =>
        if (128 ≤ b2 ∧ b2 < 192) ∧ (128 ≤ b3 ∧ b3 < 192) ∧ (128 ≤ b4 ∧ b4 < 192) then
          let code := (b - 240) * 262144 + (b2 - 128) * 4096 + (b3 - 128) * 64 + (b4 - 128)
          if 65536 ≤ code ∧ code ≤ 1114111 then
            (utf8Decode rest2).map (fun t => Char.ofNat code :: t)
          else none
        else none
      | _ => none
    else none

/-- Python `s.encode("latin-1").decode("utf-8")` with any exception leaving
the string unchanged (the mojibake repair in `clean_value`). -/
def mojibakeRepair (s : String) : String :=
  match latin1Encode s.data with
  | none => s
  | some bytes =>
    match utf8Decode bytes with
    | some cs => String.mk cs
    | none => s

/-- Non-empty all-digit run to the end of input: the trailing anchored
`\d+` of the scientific-notation regex. -/
def allDigits1 (cs : List Char) : Bool := !cs.isEmpty && cs.all Char.isDigit

/-- `[+-]?\d+` anchored at the end. -/
def sciAfterE : List Char → Bool
  | [] => false
  | c :: rest => if c = '+' ∨ c = '-' then allDigits1 rest else allDigits1 (c :: rest)

/-- `[Ee][+-]?\d+` anchored at the end. -/
def sciAfterFrac : List Char → Bool
  | [] => false
  | c :: rest => if c = 'E' ∨ c = 'e' then sciAfterE rest else false

/-- `(?:\.\d+)?[Ee][+-]?\d+` anchored at the end (if a dot is not followed
by a digit the optional group fails, and `[Ee]` cannot match the dot). -/
def sciAfterD1 : List Char → Bool
  | [] => false
  | c :: rest =>
    if c = '.' then
      if (rest.takeWhile Char.isDigit).isEmpty then false
      else sciAfterFrac (rest.dropWhile Char.isDigit)
    else sciAfterFrac (c :: rest)

/-- Full match of the scientific-notation regex used by the runner
(`\d+(?:\.\d+)?[Ee][+-]?\d+`, test_runner_all.py line 59): digits, an
optional fractional part, E or e, an optional sign, digits.  Maximal-munch
parsing coincides with the regex here because the successive character
classes are disjoint. -/
def sciShape (s : String) : Bool :=
  if (s.data.takeWhile Char.isDigit).isEmpty then false
  else sciAfterD1 (s.data.dropWhile Char.isDigit)

/-- A string made of one double quote. -/
def quoteStr : String := String.mk [quoteChar]

/-- Model of `excel_text_guard` (test_runner_all.py, lines 57-61): wrap
scientific-notation lookalikes in an explicit-text formula. -/
def excel_text_guard (s : String) : String :=
  if sciShape s then "=" ++ quoteStr ++ s ++ quoteStr else s

def containsChar (s : String) (c : Char) : Bool := s.data.contains c

/-- Model of `clean_value` (test_runner_all.py, lines 63-75). -/
def clean_value : Json → Json
  | Json.str v =>
    let s1 := pyStrip v
    let s2 :=
      if containsChar s1 (Char.ofNat 195) && !containsChar s1 (Char.ofNat 65533) then
        mojibakeRepair s1
      else s1
    Json.str (excel_text_guard (strip_double_pipes s2))
  | v => v

/-- Model of `clean_row` (test_runner_all.py, lines 77-78). -/
def clean_row (row : List (String × Json)) : List (String × Json) :=
  row.map (fun p => (p.1, clean_value p.2))

/-- Model of `safe_date_for_name` (test_runner_all.py, lines 50-52). -/
def safe_date_for_name (d : String) : String :=
  String.mk (d.data.map (fun c => if c = '/' ∨ c = backslashChar ∨ c = ':' then '-' else c))

/-- Model of `sanitize_filename` (test_runner_all.py, lines 37-41); every
replacement is one character for one character. -/
def sanitize_filename (name : String) : String :=
  String.mk (name.data.map (fun c =>
    if c = '/' ∨ c = backslashChar ∨ c = ':' ∨ c = '*' ∨ c = '?' ∨ c = '|' then '-'
    else if c = quoteChar then Char.ofNat 39
    else if c = '<' then '('
    else if c = '>' then ')'
    else c))

/-- Model of `os.path.splitext` for plain file names: split at the last dot
(hidden-file edge cases are not needed by the templated names used here). -/
def splitext (name : String) : String × String :=
  let revd := name.data.reverse
  let ext := revd.takeWhile (fun c => c ≠ '.')
  if ext.length = revd.length then (name, "")
  else (String.mk (revd.drop (ext.length + 1)).reverse, String.mk ('.' :: ext.reverse))

/-- Model of `add_school_suffix` (test_runner_all.py, lines 43-48). -/
def add_school_suffix (file_name school : String) : String :=
  if school = "" then file_name
  else
    let p := splitext file_name
    p.1 ++ "_" ++ sanitize_filename school ++ p.2

/-- One pass of Python `s.replace("__", "_")`. -/
def collapseOnce : List Char → List Char
  | [] => []
  | [c] => [c]
  | c :: c2 :: rest =>
    if c = '_' ∧ c2 = '_' then '_' :: collapseOnce rest
    else c :: collapseOnce (c2 :: rest)
termination_by cs => cs.length
decreasing_by all_goals simp only [List.length_cons]; omega

def hasDoubleUnd : List Char → Bool
  | c :: c2 :: rest => (c == '_' && c2 == '_') || hasDoubleUnd (c2 :: rest)
  | _ => false

theorem collapseOnce_length_le :
    ∀ n cs, cs.length ≤ n → (collapseOnce cs).length ≤ cs.length := by
  intro n
  induction n with
  | zero =>
    intro cs hlen
    cases cs with
    | nil => simp [collapseOnce]
    | cons c rest => simp only [List.length_cons] at hlen; omega
  | succ n ih =>
    intro cs hlen
    cases cs with
    | nil => simp [collapseOnce]
    | cons c rest =>
      cases rest with
      | nil => simp [collapseOnce]
      | cons c2 rest2 =>
        simp only [List.length_cons] at hlen
        rw [collapseOnce]
        split
        · have := ih rest2 (by omega)
          simp only [List.length_cons]
          omega
        · have := ih (c2 :: rest2) (by simp only [List.length_cons]; omega)
          simp only [List.length_cons] at this ⊢
          omega

theorem collapseOnce_length_lt :
    ∀ n cs, cs.length ≤ n → hasDoubleUnd cs = true → (collapseOnce cs).length < cs.length := by
  intro n
  induction n with
  | zero =>
    intro cs hlen hd
    cases cs with
    | nil => simp [hasDoubleUnd] at hd
    | cons c rest => simp only [List.length_cons] at hlen; omega
  | succ n ih =>
    intro cs hlen hd
    cases cs with
    | nil => simp [hasDoubleUnd] at hd
    | cons c rest =>
      cases rest with
      | nil => simp [hasDoubleUnd] at hd
      | cons c2 rest2 =>
        simp only [List.length_cons] at hlen
        rw [hasDoubleUnd] at hd
        simp only [Bool.or_eq_true, Bool.and_eq_true, beq_iff_eq] at hd
        rw [collapseOnce]
        split
        · have := collapseOnce_length_le rest2.length rest2 le_rfl
          simp only [List.length_cons]
          omega
        · rename_i hcc
          have hdd : hasDoubleUnd (c2 :: rest2) = true := by
            rcases hd with ⟨h1, h2⟩ | h2
            · exact absurd ⟨h1, h2⟩ hcc
            · exact h2
          have := ih (c2 :: rest2) (by simp only [List.length_cons]; omega) hdd
          simp only [List.length_cons] at this ⊢
          omega

/-- Python `while "__" in safe_name: safe_name = safe_name.replace("__", "_")`. -/
def collapseUnd (cs : List Char) : List Char :=
  if h : hasDoubleUnd cs then collapseUnd (collapseOnce cs) else cs
termination_by cs.length
decreasing_by exact collapseOnce_length_lt cs.length cs le_rfl h

/-- Python truthiness of a decoded JSON value. -/
def pyTruthy : Json → Bool
  | Json.null => false
  | Json.bool b => b
  | Json.num n => n != 0
  | Json.str s => s != ""
  | Json.arr l => !l.isEmpty
  | Json.obj l => !l.isEmpty

mutual

/-- Python `repr` of a decoded JSON value (string escaping inside container
reprs is not modelled; only used on values fed to the date regex, where a
container repr can never match because it starts with a bracket). -/
def pyRepr : Json → String
  | Json.null => "None"
  | Json.bool b => if b then "True" else "False"
  | Json.num n => toString n
  | Json.str s => String.mk [Char.ofNat 39] ++ s ++ String.mk [Char.ofNat 39]
  | Json.arr l => "[" ++ pyReprList l ++ "]"
  | Json.obj l => String.mk [Char.ofNat 123] ++ pyReprFields l ++ String.mk [Char.ofNat 125]

def pyReprList : List Json → String
  | [] => ""
  | [v] => pyRepr v
  | v :: v2 :: rest => pyRepr v ++ ", " ++ pyReprList (v2 :: rest)

def pyReprFields : List (String × Json) → String
  | [] => ""
  | [(k, v)] => pyRepr (Json.str k) ++ ": " ++ pyRepr v
  | (k, v) :: kv2 :: rest => pyRepr (Json.str k) ++ ": " ++ pyRepr v ++ ", " ++ pyReprFields (kv2 :: rest)

end

/-- Python `str` of a decoded JSON value. -/
def pyStr : Json → String
  | Json.str s => s
  | v => pyRepr v

/-- Python `int(s)` for strings: optional surrounding whitespace, optional
sign, one or more digits (digit-group underscores are not modelled). -/
def pyIntOfStr (s : String) : Option Int :=
  let cs := ((s.data.dropWhile pyIsSpace).reverse.dropWhile pyIsSpace).reverse
  match cs with
  | [] => none
  | c :: rest =>
    let p : Int × List Char :=
      if c = '-' then (-1, rest) else if c = '+' then (1, rest) else (1, c :: rest)
    if p.2 ≠ [] ∧ p.2.all Char.isDigit then some (p.1 * (natOfDigits p.2 : Int)) else none

/-- Python `int(x)` on a decoded JSON value; non-convertible values raise. -/
def pyInt : Json → Except String Int
  | Json.num n => Except.ok n
  | Json.bool b => Except.ok (if b then 1 else 0)
  | Json.str s =>
    match pyIntOfStr s with
    | some n => Except.ok n
    | none => Except.error "ValueError"
  | _ => Except.error "TypeError"

/-- The sort key `int(it.get("createdDate", 0))`; a non-dict item raises. -/
def itemKey : Json → Except String Int
  | Json.obj kvs => pyInt (pyGetD kvs "createdDate" (Json.num 0))
  | _ => Except.error "AttributeError"

/-- Python `it.get(k)` with default `None`; a non-dict receiver raises. -/
def pyGet1 (it : Json) (k : String) : Except String Json :=
  match it with
  | Json.obj kvs => Except.ok (pyGetD kvs k Json.null)
  | _ => Except.error "AttributeError"

/-- The values of `payload.get(k)` when that is a dict, else nothing. -/
def bucketValues (payload : List (String × Json)) (k : String) : List Json :=
  match alistGet payload k with
  | some (Json.obj kvs) => kvs.map Prod.snd
  | _ => []

/-- Merge the `newData` and `oldData` bucket values of the probe payload
(test_runner_all.py, lines 517-522). -/
def sqrItems : Json → List Json
  | Json.obj kvs => bucketValues kvs "newData" ++ bucketValues kvs "oldData"
  | _ => []

/-- Stable descending sort by key: the model of
`items.sort(key=lambda it: int(it.get("createdDate", 0)), reverse=True)`.
Python sorts are stable; with the total preorder "second key at most first
key", a stable insertion sort computes exactly the stable descending order. -/
def sortDesc (l : List (Int × Json)) : List (Int × Json) :=
  List.insertionSort (fun a b => b.1 ≤ a.1) l

/-- `\d{2}/\d{2}/` — the day/month part of the date pattern. -/
def parseDDMM : List Char → Option (List Char × List Char)
  | d1 :: d2 :: c1 :: m1 :: m2 :: c2 :: rest =>
    if d1.isDigit ∧ d2.isDigit ∧ c1 = '/' ∧ m1.isDigit ∧ m2.isDigit ∧ c2 = '/' then
      some ([d1, d2, '/', m1, m2, '/'], rest)
    else none
  | _ => none

/-- Take exactly `n` digits, if available. -/
def yearTake (n : Nat) (cs : List Char) : Option (List Char × List Char) :=
  let t := cs.take n
  if t.length = n ∧ t.all Char.isDigit then some (t, cs.drop n) else none

/-- The second date of the pattern: `\d{2}/\d{2}/\d{2,4}` followed by `\s*`
and the end of the pattern — under `re.match`, trailing input is allowed. -/
def secondDateOk (cs : List Char) : Bool :=
  match parseDDMM cs with
  | none => false
  | some (_, rest) =>
    (yearTake 4 rest).isSome || (yearTake 3 rest).isSome || (yearTake 2 rest).isSome

/-- One greedy alternative for the first date of the pattern: a year of
exactly `n` digits, then `\s*-\s*` and the second date. -/
def tryFirstYear (pre rest : List Char) (n : Nat) : Option String :=
  match yearTake n rest with
  | none => none
  | some (yr, rest2) =>
    match rest2.dropWhile pyIsSpace with
    | '-' :: rest3 =>
      if secondDateOk (rest3.dropWhile pyIsSpace) then some (String.mk (pre ++ yr)) else none
    | _ => none

/-- Model of
`re.match(r"\s*(\d{2}/\d{2}/\d{2,4})\s*-\s*(\d{2}/\d{2}/\d{2,4})\s*", ftd)`
returning group 1 (test_runner_all.py, line 526): prefix-match semantics,
greedy `{2,4}` year with backtracking (try 4, then 3, then 2 digits). -/
def fromToMatch (s : String) : Option String :=
  let cs := s.data.dropWhile pyIsSpace
  match parseDDMM cs with
  | none => none
  | some (pre, rest) =>
    match tryFirstYear pre rest 4 with
    | some g => some g
    | none =>
      match tryFirstYear pre rest 3 with
      | some g => some g
      | none => tryFirstYear pre rest 2

/-- `obj.get("data") if isinstance(obj, dict) else obj`
(test_runner_all.py, line 515). -/
def sqrData : Json → Json
  | Json.obj kvs => pyGetD kvs "data" Json.null
  | obj => obj

/-- The decode-merge-sort-match pipeline of the SQR preflight
(test_runner_all.py, lines 514-527): from the probe response body to the
site academic start date.  Every Python exception in the pipeline (a
non-dict item, a non-convertible `createdDate`) is surfaced in `Except`;
`Except.ok none` means the pipeline ran but found no items or no regex
match. -/
def sqr_site_start (probeBody : Json) : Except String (Option String) :=
  match sqrItems (decode_maybe_json (sqrData (decode_maybe_json probeBody))) with
  | [] => Except.ok none
  | i :: is =>
    match (i :: is).mapM (fun it => (itemKey it).map (fun k => (k, it))) with
    | Except.error e => Except.error e
    | Except.ok keyed =>
      match sortDesc keyed with
      | [] => Except.ok none
      | top :: _ =>
        match pyGet1 top.2 "fromToDate" with
        | Except.error e => Except.error e
        | Except.ok ftdv =>
          Except.ok (fromToMatch (if pyTruthy ftdv then pyStr ftdv else ""))

/-- The request parameters and the two filename date labels after the SQR
preflight block (test_runner_all.py, lines 497-535). -/
structure SqrResolved where
  params : List (String × Json)
  startLabel : String
  endLabel : String

/-- Model of the SQR preflight override (test_runner_all.py, lines 501-535):
on success the probe result overrides `startDate`/`endDate` in the request
parameters and both filename labels; on any failure — a raised exception
(`Except.error` probe), a raised exception inside the pipeline, or no regex
match — everything is left unchanged. -/
def sqr_apply (params : List (String × Json)) (safeS safeE todayStr : String)
    (probe : Except String Json) : SqrResolved :=
  match probe with
  | Except.error _ => ⟨params, safeS, safeE⟩
  | Except.ok body =>
    match sqr_site_start body with
    | Except.error _ => ⟨params, safeS, safeE⟩
    | Except.ok none => ⟨params, safeS, safeE⟩
    | Except.ok (some site) =>
      ⟨objInsert (objInsert params "startDate" (Json.str site)) "endDate" (Json.str todayStr),
       safe_date_for_name site, safe_date_for_name todayStr⟩

/-- The probe request parameters (test_runner_all.py, lines 506-511): a wide
window from January 1 of the current year to today. -/
def sqr_probe_params (yearStr todayStr classCode : String) : List (String × String) :=
  [("timePeriod", "predefined"),
   ("startDate", "01/01/" ++ yearStr),
   ("endDate", todayStr),
   ("levelSection", classCode)]

/-- A configured grade level; only its code is consulted by the runner
(a level that is `None` or lacks the key behaves as code `""`). -/
structure Level where
  code : String
deriving DecidableEq

/-- The configuration and catalog data consumed by the main runner loop.
`discovered` is the section-code list the Excel discovery step would return
for this school (the Excel file itself is an external collaborator). -/
structure Ctx where
  catalogNames : List String
  NEED_CLASS : Bool
  levels : List Level
  subjectMap : List (String × String)
  discovered : List String
deriving DecidableEq

/-- Python `str.zfill(2)`. -/
def zfill2 (s : String) : String :=
  if s.length ≥ 2 then s else String.mk (List.replicate (2 - s.length) '0') ++ s

/-- The selected grade codes (the script builds a Python set; only membership
and emptiness are used, so a list with possible duplicates models it). -/
def selectedLevels (cfg : Ctx) : List String :=
  (cfg.levels.filter (fun lv => lv.code ≠ "")).map (fun lv => zfill2 lv.code)

/-- `SECTION_CODES` (test_runner_all.py, lines 304-311): discovered sections
filtered by the selected grades, and nothing at all when class reports are
disabled. -/
def SECTION_CODES (cfg : Ctx) : List String :=
  if cfg.NEED_CLASS then
    cfg.discovered.filter (fun c => selectedLevels cfg = [] ∨ (c.take 2) ∈ selectedLevels cfg)
  else []

def SQR_NAME : String := "Student Quiz Performance Report"

def TABLE_DATA_REPORTS : List String :=
  ["School Logins Report", "School Lessons Usage Report", "School Assignments Usage Report",
   REPORT_NAME_SECTIONS]

def OTHER_REPORTS_BASE : List String :=
  ["Teacher Assignment Log Quiz", "Teacher Assignment Log Worksheet",
   "Teacher Assignment Log Prasso", "Teacher Assignment Log Reading",
   "All Teachers Usage Logins", "All Teachers Usage Lesson Accessed",
   "All Teachers Usage Assignments assigned",
   "Class Login Report", "Class Lessons Report", "Class Assignment Report",
   SQR_NAME]

/-- Python `name.startswith("Class ")`. -/
def isClassName (n : String) : Bool :=
  match n.data with
  | 'C' :: 'l' :: 'a' :: 's' :: 's' :: ' ' :: _ => true
  | _ => false

/-- Catalog reports whose name starts with "Class " (test_runner_all.py,
line 345). -/
def CLASS_REPORTS (cfg : Ctx) : List String :=
  cfg.catalogNames.filter isClassName

/-- `OTHER_REPORTS` after the custom class reports are appended
(test_runner_all.py, line 346). -/
def OTHER_REPORTS (cfg : Ctx) : List String :=
  OTHER_REPORTS_BASE ++ (CLASS_REPORTS cfg).filter (fun n => n ∉ OTHER_REPORTS_BASE)

/-- The order in which the main loop visits report names. -/
def loopReports (cfg : Ctx) : List String := TABLE_DATA_REPORTS ++ OTHER_REPORTS cfg

/-- Model of `runs_teacher_reports_from_map` (test_runner_all.py, lines
376-384): the (level code, subject uuid) pairs for levels having both, with
the literal `runs or [({}, {})]` fallback. -/
def runs_teacher_reports_from_map (cfg : Ctx) : List (String × String) :=
  let runs := cfg.levels.filterMap (fun lv =>
    let subj := (alistGet cfg.subjectMap lv.code).getD ""
    if lv.code ≠ "" ∧ subj ≠ "" then some (lv.code, subj) else none)
  if runs = [] then [("", "")] else runs

/-- Per-section run pairs, with the `or [({}, {})]` fallback. -/
def sectionRuns (cfg : Ctx) : List (String × String) :=
  match SECTION_CODES cfg with
  | [] => [("", "")]
  | l => l.map (fun c => (c, ""))

/-- Per-level run pairs for the sections table report. -/
def levelRuns (cfg : Ctx) : List (String × String) :=
  match cfg.levels with
  | [] => [("", "")]
  | l => l.map (fun lv => (lv.code, ""))

def teacherReportNames : List String :=
  ["Teacher Assignment Log Quiz", "Teacher Assignment Log Worksheet",
   "Teacher Assignment Log Prasso", "Teacher Assignment Log Reading"]

def singleRunNames : List String :=
  ["School Logins Report", "School Lessons Usage Report", "School Assignments Usage Report",
   "All Teachers Usage Logins", "All Teachers Usage Lesson Accessed",
   "All Teachers Usage Assignments assigned"]

/-- `RUN_PLAN.get(report_name, [({}, {})])` (test_runner_all.py, lines
386-416 and 483).  The loop at line 415 assigns every catalog "Class ..."
name after the dict literal, so those names are matched first. -/
def RUN_PLAN_get (cfg : Ctx) (name : String) : List (String × String) :=
  if name ∈ CLASS_REPORTS cfg then sectionRuns cfg
  else if name ∈ singleRunNames then [("", "")]
  else if name = REPORT_NAME_SECTIONS then levelRuns cfg
  else if name ∈ teacherReportNames then runs_teacher_reports_from_map cfg
  else if name ∈ ["Class Login Report", "Class Lessons Report",
                  "Class Assignment Report", SQR_NAME] then sectionRuns cfg
  else [("", "")]

/-- Observable per-invocation effects produced inside an invocation body. -/
inductive BodyEff where
  | csvWrite (fname : String) (header : List String) (dataRows : Nat)
  | sidecarWrite (fname : String)
  | manifestEntryAdded (rowCount : Nat)
  | logLine (line : String)
deriving DecidableEq

/-- Observable events of one run of the main loop. -/
inductive Event where
  | classDisabledInfo
  | noSectionsWarn
  | sectionsDiscovered
  | skippedClassDisabled (report : String)
  | reportNotFound (report : String)
  | attempt (report classCode subjectCode : String)
  | bodyEff (report : String) (eff : BodyEff)
  | invocationError (report errMsg : String)
  | manifestAttempt (ok : Bool)
deriving DecidableEq

/-- One iteration of the inner runs loop (test_runner_all.py, lines
485-665): the `try` body is abstracted as `body`, returning the effects it
performed and, optionally, the exception it raised; the surrounding
`except` turns a raised exception into a logged error and moves on. -/
def runInvocation (body : String → String → String → List BodyEff × Option String)
    (name c su : String) : List Event :=
  Event.attempt name c su ::
    ((body name c su).1.map (Event.bodyEff name) ++
      match (body name c su).2 with
      | none => []
      | some e => [Event.invocationError name e])

/-- One iteration of the outer report loop (test_runner_all.py, lines
465-483): the class-report gate, the SQR gate, the catalog lookup and the
runs loop. -/
def runReport (cfg : Ctx) (body : String → String → String → List BodyEff × Option String)
    (name : String) : List Event :=
  if name ∈ CLASS_REPORTS cfg ∧ cfg.NEED_CLASS = false then [Event.skippedClassDisabled name]
  else if name = SQR_NAME ∧ cfg.NEED_CLASS = false then [Event.skippedClassDisabled name]
  else if name ∈ cfg.catalogNames then
    (RUN_PLAN_get cfg name).bind (fun p => runInvocation body name p.1 p.2)
  else [Event.reportNotFound name]

/-- The discovery prologue (test_runner_all.py, lines 304-311 and the
warning inside `load_sections_and_labels`): the class-disabled info line is
logged by a different statement than the no-sections warning. -/
def discoveryEvents (cfg : Ctx) : List Event :=
  if cfg.NEED_CLASS then
    (if cfg.discovered = [] then [Event.noSectionsWarn] else [Event.sectionsDiscovered])
  else [Event.classDisabledInfo]

/-- The whole script run (test_runner_all.py, lines 304-669): discovery,
the report loop, then exactly one attempt to write the run manifest
(`finalise_run_manifest` catches its own write failure, modelled by the
`manifestWriteOk` flag). -/
def mainRun (cfg : Ctx) (body : String → String → String → List BodyEff × Option String)
    (manifestWriteOk : Bool) : List Event :=
  discoveryEvents cfg ++ (loopReports cfg).bind (runReport cfg body) ++
    [Event.manifestAttempt manifestWriteOk]

/-- The invocations the run plan schedules for actual execution. -/
def plannedInvocations (cfg : Ctx) : List (String × String × String) :=
  (loopReports cfg).bind (fun name =>
    if name ∈ CLASS_REPORTS cfg ∧ cfg.NEED_CLASS = false then []
    else if name = SQR_NAME ∧ cfg.NEED_CLASS = false then []
    else if name ∈ cfg.catalogNames then
      (RUN_PLAN_get cfg name).map (fun p => (name, p.1, p.2))
    else [])

/-- `EXPECTED_HEADERS` is defined nowhere in test_runner_all.py, so
`globals().get("EXPECTED_HEADERS", {})` always yields the empty dict. -/
def EXPECTED_HEADERS : List (String × List String) := []

/-- Class label resolution and placeholder substitution
(test_runner_all.py, lines 139-173).  The global `SECTION_LABEL_MAP` is
passed explicitly.  Replacements of a pattern that is absent are identities,
so the two guarded readability tweaks only need the guard that keeps their
pattern non-empty. -/
def inject_class_and_dates (template_name class_code start_label end_label : String)
    (section_label_map grade_label_map : List (String × String)) : String :=
  let class_label :=
    if class_code ≠ "" then
      let h1 := (alistGet section_label_map class_code).getD ""
      let h2 := (alistGet grade_label_map class_code).getD ""
      let h3 := (alistGet grade_label_map (class_code.take 2)).getD ""
      let human := if h1 ≠ "" then h1 else if h2 ≠ "" then h2 else h3
      if human ≠ "" then human else "Class " ++ class_code
    else ""
  let n1 := (template_name.replace "<class>" class_label).replace "(class)"
              (if class_label ≠ "" then class_label ++ "_" else "")
  let n2 := (n1.replace "<start_date>" start_label).replace "(start_date)" start_label
  let n3 := (n2.replace "<end_date>" end_label).replace "(end_date)" end_label
  let n4 := (n3.replace "<SAFE_START>" start_label).replace "(SAFE_START)" start_label
  let n5 := (n4.replace "<SAFE_END>" end_label).replace "(SAFE_END)" end_label
  let n6 :=
    if class_label ≠ "" then
      n5.replace (class_label ++ start_label) (class_label ++ "_" ++ start_label)
    else n5
  let n7 :=
    if start_label ++ end_label ≠ "" then
      n6.replace (start_label ++ end_label) (start_label ++ "_" ++ end_label)
    else n6
  String.mk (collapseUnd n7.data)

/-- Output filename construction (test_runner_all.py, lines 585-588 and
629-632): template default, sanitation, placeholder injection, school
suffix. -/
def mkOutName (template : Option String) (report_name class_code : String)
    (use_start_label use_end_label school_name : String)
    (section_label_map grade_label_map : List (String × String)) : String :=
  let t := match template with | some t => t | none => report_name ++ ".csv"
  add_school_suffix
    (inject_class_and_dates (sanitize_filename t) class_code use_start_label use_end_label
      section_label_map grade_label_map)
    school_name

/-- Model of the response-processing tail of an invocation
(test_runner_all.py, lines 573-662): decode, extract, validate, then either
the empty-list branch, the no-usable-rows warning, or the row-writing
branch.  Sidecar and manifest records are modelled by the row count they
carry; log text is elided. -/
def process_response (report_name : String) (template : Option String)
    (school_name class_code : String) (use_start_label use_end_label : String)
    (section_label_map grade_label_map : List (String × String))
    (raw : Json) : List BodyEff :=
  let resp_obj := decode_maybe_json raw
  let values := decode_maybe_json (extract_values report_name resp_obj)
  match ensure_rows values with
  | none =>
    match values with
    | Json.arr [] =>
      let fieldnames := (alistGet EXPECTED_HEADERS report_name).getD []
      let fname := mkOutName template report_name class_code use_start_label use_end_label
        school_name section_label_map grade_label_map
      [BodyEff.csvWrite fname fieldnames 0, BodyEff.sidecarWrite fname,
       BodyEff.manifestEntryAdded 0]
    | _ => [BodyEff.logLine "no usable rows"]
  | some (fieldnames, rows) =>
    let cleaned := rows.map clean_row
    let fname := mkOutName template report_name class_code use_start_label use_end_label
      school_name section_label_map grade_label_map
    [BodyEff.csvWrite fname fieldnames cleaned.length, BodyEff.sidecarWrite fname,
     BodyEff.manifestEntryAdded cleaned.length]

/-- Modelled from the claim wording of C6: exactly one invocation per
selected level having a non-empty code and a non-empty subject mapping, in
configuration order — to be compared with `runs_teacher_reports_from_map`. -/
def teacherRunsClaimed (cfg : Ctx) : List (String × String) :=
  cfg.levels.filterMap (fun lv =>
    let subj := (alistGet cfg.subjectMap lv.code).getD ""
    if lv.code ≠ "" ∧ subj ≠ "" then some (lv.code, subj) else none)

theorem mem_keysUnion :
    ∀ (ks acc : List String) (k : String), k ∈ keysUnion acc ks ↔ k ∈ acc ∨ k ∈ ks := by
  intro ks
  induction ks with
  | nil => intro acc k; simp [keysUnion]
  | cons x rest ih =>
    intro acc k
    show k ∈ keysUnion (if x ∈ acc then acc else acc ++ [x]) rest ↔ _
    rw [ih]
    split
    · rename_i hx
      constructor
      · rintro (h | h)
        · exact Or.inl h
        · exact Or.inr (List.mem_cons_of_mem x h)
      · rintro (h | h)
        · exact Or.inl h
        · rcases List.mem_cons.mp h with rfl | h2
          · exact Or.inl hx
          · exact Or.inr h2
    · rename_i hx
      constructor
      · rintro (h | h)
        · rcases List.mem_append.mp h with h1 | h1
          · exact Or.inl h1
          · exact Or.inr (List.mem_cons.mpr (Or.inl (List.mem_singleton.mp h1)))
        · exact Or.inr (List.mem_cons_of_mem x h)
      · rintro (h | h)
        · exact Or.inl (List.mem_append.mpr (Or.inl h))
        · rcases List.mem_cons.mp h with rfl | h2
          · exact Or.inl (List.mem_append.mpr (Or.inr (List.mem_singleton.mpr rfl)))
          · exact Or.inr h2

theorem keysUnion_nodup :
    ∀ (ks acc : List String), acc.Nodup → (keysUnion acc ks).Nodup := by
  intro ks
  induction ks with
  | nil => intro acc h; simpa [keysUnion] using h
  | cons x rest ih =>
    intro acc h
    show (keysUnion (if x ∈ acc then acc else acc ++ [x]) rest).Nodup
    apply ih
    split
    · exact h
    · rename_i hx
      rw [List.nodup_append]
      refine ⟨h, List.nodup_singleton x, ?_⟩
      intro a ha hax
      rw [List.mem_singleton] at hax
      subst hax
      exact hx ha

theorem ensureGo_spec :
    ∀ rows accK accR ks rs,
      ensureGo rows accK accR = some (ks, rs) →
      ∃ fs, rows = fs.map Json.obj ∧ rs = accR.reverse ++ fs
        ∧ (∀ k, k ∈ ks ↔ k ∈ accK ∨ ∃ f ∈ fs, k ∈ f.map Prod.fst)
        ∧ (accK.Nodup → ks.Nodup) := by
  intro rows
  induction rows with
  | nil =>
    intro accK accR ks rs h
    simp only [ensureGo, Option.some.injEq, Prod.mk.injEq] at h
    obtain ⟨hk, hr⟩ := h
    refine ⟨[], by simp, by simp [← hr], ?_, ?_⟩
    · intro k; simp [← hk]
    · intro hn; rw [← hk]; exact hn
  | cons r rest ih =>
    intro accK accR ks rs h
    cases r with
    | obj fields =>
      rw [ensureGo] at h
      obtain ⟨fs, hrows, hrs, hks, hnd⟩ := ih _ _ _ _ h
      refine ⟨fields :: fs, by simp [hrows], ?_, ?_, ?_⟩
      · simp [hrs]
      · intro k
        rw [hks k, mem_keysUnion]
        constructor
        · rintro ((h1 | h1) | h1)
          · exact Or.inl h1
          · exact Or.inr ⟨fields, by simp, h1⟩
          · obtain ⟨f, hf, hkk⟩ := h1
            exact Or.inr ⟨f, by simp [hf], hkk⟩
        · rintro (h1 | ⟨f, hf, hkk⟩)
          · exact Or.inl (Or.inl h1)
          · rcases List.mem_cons.mp hf with rfl | hf2
            · exact Or.inl (Or.inr hkk)
            · exact Or.inr ⟨f, hf2, hkk⟩
      · intro hn
        exact hnd (keysUnion_nodup _ _ hn)
    | null => simp [ensureGo] at h
    | bool b => simp [ensureGo] at h
    | num n => simp [ensureGo] at h
    | str s2 => simp [ensureGo] at h
    | arr l => simp [ensureGo] at h

theorem ensureGo_isSome :
    ∀ rows accK accR,
      (ensureGo rows accK accR).isSome = true ↔ ∃ fs, rows = List.map Json.obj fs := by
  intro rows
  induction rows with
  | nil =>
    intro accK accR
    simp only [ensureGo, Option.isSome_some, true_iff]
    exact ⟨[], rfl⟩
  | cons r rest ih =>
    intro accK accR
    cases r with
    | obj fields =>
      rw [ensureGo, ih]
      constructor
      · rintro ⟨fs, rfl⟩
        exact ⟨fields :: fs, rfl⟩
      · rintro ⟨fs, hfs⟩
        cases fs with
        | nil => exact absurd hfs (by simp)
        | cons f fs2 =>
          simp only [List.map_cons, List.cons.injEq] at hfs
          exact ⟨fs2, hfs.2⟩
    | null =>
      refine iff_of_false (by simp [ensureGo]) ?_
      rintro ⟨fs, hfs⟩
      cases fs with
      | nil => simp at hfs
      | cons f fs2 => simp at hfs
    | bool b =>
      refine iff_of_false (by simp [ensureGo]) ?_
      rintro ⟨fs, hfs⟩
      cases fs with
      | nil => simp at hfs
      | cons f fs2 => simp at hfs
    | num n =>
      refine iff_of_false (by simp [ensureGo]) ?_
      rintro ⟨fs, hfs⟩
      cases fs with
      | nil => simp at hfs
      | cons f fs2 => simp at hfs
    | str s2 =>
      refine iff_of_false (by simp [ensureGo]) ?_
      rintro ⟨fs, hfs⟩
      cases fs with
      | nil => simp at hfs
      | cons f fs2 => simp at hfs
    | arr l =>
      refine iff_of_false (by simp [ensureGo]) ?_
      rintro ⟨fs, hfs⟩
      cases fs with
      | nil => simp at hfs
      | cons f fs2 => simp at hfs

/-- C4: `ensure_rows` accepts a value exactly when it is a list all of whose
elements are key/value records; on success it returns the union of all rows'
keys (without duplicates) together with the rows themselves; any non-list or
any non-record element yields `none` — never a partial subset of rows. -/
theorem C4_ensure_rows_spec :
    ∀ v : Json,
      ((ensure_rows v).isSome = true ↔ ∃ fs, v = Json.arr (List.map Json.obj fs))
      ∧ (∀ ks rs, ensure_rows v = some (ks, rs) →
          v = Json.arr (rs.map Json.obj)
          ∧ (∀ k, k ∈ ks ↔ ∃ f ∈ rs, k ∈ f.map Prod.fst)
          ∧ ks.Nodup) := by
  intro v
  constructor
  · cases v with
    | arr rows =>
      rw [show ensure_rows (Json.arr rows) = ensureGo rows [] [] from rfl, ensureGo_isSome]
      constructor
      · rintro ⟨fs, rfl⟩; exact ⟨fs, rfl⟩
      · rintro ⟨fs, hfs⟩
        injection hfs with h1
        exact ⟨fs, h1⟩
    | null => simp [ensure_rows]
    | bool b => simp [ensure_rows]
    | num n => simp [ensure_rows]
    | str s2 => simp [ensure_rows]
    | obj l => simp [ensure_rows]
  · intro ks rs h
    cases v with
    | arr rows =>
      rw [show ensure_rows (Json.arr rows) = ensureGo rows [] [] from rfl] at h
      obtain ⟨fs, hrows, hrs, hks, hnd⟩ := ensureGo_spec rows [] [] ks rs h
      simp only [List.reverse_nil, List.nil_append] at hrs
      subst hrs
      refine ⟨by rw [hrows], ?_, hnd List.nodup_nil⟩
      intro k
      rw [hks k]
      simp
    | null => simp [ensure_rows] at h
    | bool b => simp [ensure_rows] at h
    | num n => simp [ensure_rows] at h
    | str s2 => simp [ensure_rows] at h
    | obj l => simp [ensure_rows] at h

/-- C4 witness: a concrete two-row list with overlapping keys. -/
theorem C4_witness :
    Json.arr [Json.obj [("a", Json.num 1)], Json.obj [("b", Json.num 2), ("a", Json.null)]]
      = Json.arr (([[("a", Json.num 1)], [("b", Json.num 2), ("a", Json.null)]]).map Json.obj)
    ∧ (∀ k, k ∈ ["a", "b"] ↔
        ∃ f ∈ [[("a", Json.num 1)], [("b", Json.num 2), ("a", Json.null)]], k ∈ f.map Prod.fst)
    ∧ List.Nodup ["a", "b"] :=
  (C4_ensure_rows_spec
    (Json.arr [Json.obj [("a", Json.num 1)], Json.obj [("b", Json.num 2), ("a", Json.null)]])).2
    ["a", "b"] [[("a", Json.num 1)], [("b", Json.num 2), ("a", Json.null)]] (by rfl)

/-- C3: `decode_maybe_json` returns any non-string value unchanged, unwraps
one JSON-decodable string layer at a time, returns an undecodable string
unchanged, and therefore maps a value wrapped in any number of JSON string
encoding layers back to the wrapped core value (when that core is not itself
a string) — string-in-string-in-array included, at any depth. -/
theorem C3_decode_maybe_json_unwraps :
    (∀ v : Json, (∀ s, v ≠ Json.str s) → decode_maybe_json v = v)
    ∧ (∀ s w, loads s = some w → decode_maybe_json (Json.str s) = decode_maybe_json w)
    ∧ (∀ s, loads s = none → decode_maybe_json (Json.str s) = Json.str s)
    ∧ (∀ n v w, Wraps n v w → (∀ s, v ≠ Json.str s) → decode_maybe_json w = v) := by
  refine ⟨decode_nonstr, decode_str_some, decode_str_none, ?_⟩
  intro n v w hw
  induction hw with
  | zero => intro hv; exact decode_nonstr _ hv
  | succ m v2 s2 w2 hl hwr ih =>
    intro hv
    rw [decode_str_some s2 w2 hl]
    exact ih hv

/-- C3 witness: the four-character body `"[]"` is a JSON string holding a
JSON string holding a JSON array (two wrapping layers over the empty array),
and decoding yields that array; an unparsable string stays unchanged. -/
theorem C3_witness :
    decode_maybe_json (Json.str (String.mk [quoteChar, '[', ']', quoteChar])) = Json.arr []
    ∧ decode_maybe_json (Json.str "x") = Json.str "x" := by
  constructor
  · exact C3_decode_maybe_json_unwraps.2.2.2 2 (Json.arr [])
      (Json.str (String.mk [quoteChar, '[', ']', quoteChar]))
      (Wraps.succ 1 (Json.arr []) (String.mk [quoteChar, '[', ']', quoteChar]) (Json.str "[]")
        (by rfl)
        (Wraps.succ 0 (Json.arr []) "[]" (Json.arr []) (by rfl) (Wraps.zero (Json.arr []))))
      (fun s hs => Json.noConfusion hs)
  · exact C3_decode_maybe_json_unwraps.2.2.1 "x" (by rfl)

/-- C5: for a named-key extraction mode, when the decoded response object
lacks the expected key but has one of the alias keys, `extract_values`
returns the recursively decoded value under the first alias present. -/
theorem C5_extract_alias_fallback :
    ∀ name mode v fields k,
      alistGet EXTRACT_MAP name = some mode →
      mode ≠ "direct_list" →
      decode_maybe_json v = Json.obj fields →
      alistGet fields mode = none →
      firstAlias fields = some k →
      extract_values name v = decode_maybe_json (pyGetD fields k Json.null) := by
  intro name mode v fields k hm hdl hd hmiss halias
  unfold extract_values
  rw [hm]
  simp only [hd, pyInNoneFalse, emptyStrMarker, Bool.or_self]
  rw [if_neg (by simp), if_neg hdl]
  simp only [hmiss, halias, Option.isSome_none, Bool.false_eq_true, if_false, Option.getD_some]

/-- C5 witness: the `Class Login Report` mode is "data"; an object lacking
"data" but holding "TABLE_DATA" is extracted through the alias. -/
theorem C5_witness :
    extract_values "Class Login Report" (Json.obj [("TABLE_DATA", Json.arr [])])
      = Json.arr [] := by
  have h := C5_extract_alias_fallback "Class Login Report" "data"
    (Json.obj [("TABLE_DATA", Json.arr [])]) [("TABLE_DATA", Json.arr [])] "TABLE_DATA"
    (by rfl) (by decide) (by rfl) (by rfl) (by rfl)
  rw [h]
  rfl

/-- C10: any decoded payload equal to the number `0` passes the
`obj in (None, False)` no-rows test (Python equality makes `0 == False`
true), so extraction yields the empty list for every report with a defined
extraction mode. -/
theorem C10_zero_payload_no_rows :
    ∀ name mode, alistGet EXTRACT_MAP name = some mode →
      extract_values name (Json.num 0) = Json.arr [] := by
  intro name mode hm
  unfold extract_values
  rw [hm]
  rfl

/-- C10 witness: the zero payload for a concrete report. -/
theorem C10_witness :
    extract_values "Class Login Report" (Json.num 0) = Json.arr [] :=
  C10_zero_payload_no_rows "Class Login Report" "data" (by rfl)

theorem alistGet_objInsert_self :
    ∀ (l : List (String × Json)) k v, alistGet (objInsert l k v) k = some v := by
  intro l k v
  induction l with
  | nil => simp [objInsert, alistGet]
  | cons p rest ih =>
    obtain ⟨k2, v2⟩ := p
    rw [objInsert]
    split
    · simp only [alistGet]
      simp
    · rename_i hne
      simp only [alistGet]
      rw [if_neg hne]
      exact ih

theorem alistGet_objInsert_other :
    ∀ (l : List (String × Json)) k k2 v, k2 ≠ k →
      alistGet (objInsert l k v) k2 = alistGet l k2 := by
  intro l k k2 v hne
  induction l with
  | nil =>
    simp only [objInsert, alistGet]
    rw [if_neg (fun he : k = k2 => hne he.symm)]
  | cons p rest ih =>
    obtain ⟨k3, v3⟩ := p
    rw [objInsert]
    split
    · rename_i heq
      simp only [alistGet]
      rw [if_neg (fun he : k = k2 => hne he.symm),
        if_neg (fun he : k3 = k2 => hne (he.symm.trans heq))]
    · simp only [alistGet]
      split
      · rfl
      · exact ih

instance : IsTotal (Int × Json) (fun a b => b.1 ≤ a.1) :=
  ⟨fun a b => Int.le_total b.1 a.1⟩

instance : IsTrans (Int × Json) (fun a b => b.1 ≤ a.1) :=
  ⟨fun a b c hab hbc => le_trans hbc hab⟩

theorem sortDesc_perm (l : List (Int × Json)) : (sortDesc l).Perm l :=
  List.perm_insertionSort _ l

theorem sortDesc_pairwise (l : List (Int × Json)) :
    (sortDesc l).Pairwise (fun a b => b.1 ≤ a.1) :=
  List.sorted_insertionSort _ l

theorem sortDesc_head_max (l : List (Int × Json)) (top : Int × Json)
    (rest : List (Int × Json)) (h : sortDesc l = top :: rest) :
    ∀ p ∈ l, p.1 ≤ top.1 := by
  intro p hp
  have hmem : p ∈ sortDesc l := (sortDesc_perm l).mem_iff.mpr hp
  rw [h] at hmem
  rcases List.mem_cons.mp hmem with rfl | h2
  · exact le_refl _
  · have hs := sortDesc_pairwise l
    rw [h] at hs
    exact (List.pairwise_cons.mp hs).1 p h2

/-- C2: the SQR preflight.  The probe parameters span January 1 of the
current year through today; on a probe exception, a pipeline exception or no
regex match the configured parameters and labels are used unchanged; on
success the most recent record's left-hand date becomes the request
`startDate`, today becomes `endDate`, and the two filename labels are the
safe forms of the same dates.  The pipeline merges both buckets, converts
every `createdDate` with Python `int`, sorts stably descending and examines
the head, which carries a maximal `createdDate`; `sortDesc` is a stable
descending permutation. -/
theorem C2_sqr_academic_window :
    (∀ y t c, sqr_probe_params y t c =
      [("timePeriod", "predefined"), ("startDate", "01/01/" ++ y), ("endDate", t),
       ("levelSection", c)])
    ∧ (∀ params sS sE today e,
        sqr_apply params sS sE today (Except.error e) = ⟨params, sS, sE⟩)
    ∧ (∀ params sS sE today body e, sqr_site_start body = Except.error e →
        sqr_apply params sS sE today (Except.ok body) = ⟨params, sS, sE⟩)
    ∧ (∀ params sS sE today body, sqr_site_start body = Except.ok none →
        sqr_apply params sS sE today (Except.ok body) = ⟨params, sS, sE⟩)
    ∧ (∀ params sS sE today body site, sqr_site_start body = Except.ok (some site) →
        sqr_apply params sS sE today (Except.ok body) =
          ⟨objInsert (objInsert params "startDate" (Json.str site)) "endDate"
             (Json.str today),
           safe_date_for_name site, safe_date_for_name today⟩
        ∧ alistGet (sqr_apply params sS sE today (Except.ok body)).params "startDate"
            = some (Json.str site)
        ∧ alistGet (sqr_apply params sS sE today (Except.ok body)).params "endDate"
            = some (Json.str today))
    ∧ (∀ body keyed top rest f,
        (sqrItems (decode_maybe_json (sqrData (decode_maybe_json body)))).mapM
            (fun it => (itemKey it).map (fun k => (k, it))) = Except.ok keyed →
        sortDesc keyed = top :: rest →
        pyGet1 top.2 "fromToDate" = Except.ok f →
        (sqrItems (decode_maybe_json (sqrData (decode_maybe_json body))) ≠ [] →
          sqr_site_start body
            = Except.ok (fromToMatch (if pyTruthy f then pyStr f else "")))
        ∧ (∀ p ∈ keyed, p.1 ≤ top.1))
    ∧ (∀ l : List (Int × Json),
        (sortDesc l).Perm l ∧ (sortDesc l).Pairwise (fun a b => b.1 ≤ a.1)) := by
  have happly : ∀ params sS sE today body,
      sqr_apply params sS sE today (Except.ok body) =
        (match sqr_site_start body with
         | Except.error _ => (⟨params, sS, sE⟩ : SqrResolved)
         | Except.ok none => ⟨params, sS, sE⟩
         | Except.ok (some site) =>
           ⟨objInsert (objInsert params "startDate" (Json.str site)) "endDate"
              (Json.str today),
            safe_date_for_name site, safe_date_for_name today⟩) :=
    fun params sS sE today body => rfl
  refine ⟨fun y t c => rfl, fun params sS sE today e => rfl, ?_, ?_, ?_, ?_, ?_⟩
  · intro params sS sE today body e h
    rw [happly, h]
  · intro params sS sE today body h
    rw [happly, h]
  · intro params sS sE today body site h
    rw [happly, h]
    refine ⟨rfl, ?_, ?_⟩
    · rw [alistGet_objInsert_other _ _ _ _ (by decide), alistGet_objInsert_self]
    · rw [alistGet_objInsert_self]
  · intro body keyed top rest f hmapm hsort hget
    constructor
    · intro hne
      unfold sqr_site_start
      cases hE : sqrItems (decode_maybe_json (sqrData (decode_maybe_json body))) with
      | nil => exact absurd hE hne
      | cons i is =>
        rw [hE] at hmapm
        simp only [hmapm, hsort, hget]
    · exact sortDesc_head_max keyed top rest hsort
  · intro l
    exact ⟨sortDesc_perm l, sortDesc_pairwise l⟩

/-- C2 witness: a two-bucket probe response whose most recent record
(creation stamp 5, beating 3) carries the window `01/04/24 - 30/09/24`; the
resolution overrides the parameters with `01/04/24` and today, and retitles
both labels; a failed probe leaves everything unchanged. -/
theorem C2_witness :
    sqr_apply [("startDate", Json.str "01/01/2024")] "01-01-2024" "31-12-2024" "05/10/2025"
      (Except.ok (Json.obj [("data", Json.obj [
        ("newData", Json.obj [("w1", Json.obj [("createdDate", Json.num 5),
          ("fromToDate", Json.str "01/04/24 - 30/09/24")])]),
        ("oldData", Json.obj [("w0", Json.obj [("createdDate", Json.num 3),
          ("fromToDate", Json.str "01/01/23 - 30/06/23")])])])]))
      = ⟨objInsert (objInsert [("startDate", Json.str "01/01/2024")] "startDate"
            (Json.str "01/04/24")) "endDate" (Json.str "05/10/2025"),
         safe_date_for_name "01/04/24", safe_date_for_name "05/10/2025"⟩
    ∧ sqr_apply [("startDate", Json.str "x")] "a" "b" "t" (Except.error "ConnectionError")
        = ⟨[("startDate", Json.str "x")], "a", "b"⟩ :=
  ⟨(C2_sqr_academic_window.2.2.2.2.1 _ _ _ _ _ "01/04/24" (by rfl)).1,
   C2_sqr_academic_window.2.1 _ _ _ _ _⟩

/-- C8: when extraction yields a list of length zero the invocation still
writes a header-only CSV file, writes a metadata sidecar, and appends a
manifest entry with row count 0.  The best-effort expected-header list
(`EXPECTED_HEADERS`) is undefined in this script, so the header defaults to
the empty header in every case: an empty row list has an empty key union. -/
theorem C8_empty_extraction_header_only :
    ∀ name template school cc sl el slm glm raw,
      extract_values name (decode_maybe_json raw) = Json.arr [] →
      ∃ f, process_response name template school cc sl el slm glm raw =
        [BodyEff.csvWrite f [] 0, BodyEff.sidecarWrite f, BodyEff.manifestEntryAdded 0] := by
  intro name template school cc sl el slm glm raw hex
  refine ⟨mkOutName template name cc sl el school slm glm, ?_⟩
  simp only [process_response]
  rw [hex]
  rfl

/-- C8 witness: a table-data report whose payload carries an explicitly
empty table. -/
theorem C8_witness :
    ∃ f, process_response "School Logins Report" none "Sch" "" "01-01-2024" "31-12-2024" [] []
        (Json.obj [("TABLE_DATA", Json.arr [])]) =
      [BodyEff.csvWrite f [] 0, BodyEff.sidecarWrite f, BodyEff.manifestEntryAdded 0] :=
  C8_empty_extraction_header_only "School Logins Report" none "Sch" "" "01-01-2024"
    "31-12-2024" [] [] (Json.obj [("TABLE_DATA", Json.arr [])]) (by rfl)

/-- C6 counterexample: one selected level (code "04") with no subject
mapping.  The claim implies an empty teacher run plan, but the code's
`runs or [({}, {})]` fallback plans a single placeholder invocation with
empty level and subject codes. -/
theorem C6_counterexample :
    RUN_PLAN_get ⟨[], false, [⟨"04"⟩], [], []⟩ "Teacher Assignment Log Quiz" = [("", "")]
    ∧ teacherRunsClaimed ⟨[], false, [⟨"04"⟩], [], []⟩ = []
    ∧ RUN_PLAN_get ⟨[], false, [⟨"04"⟩], [], []⟩ "Teacher Assignment Log Quiz"
        ≠ teacherRunsClaimed ⟨[], false, [⟨"04"⟩], [], []⟩ := by
  refine ⟨by decide, by decide, by decide⟩

theorem RUN_PLAN_teacher (cfg : Ctx) (name : String)
    (hsw : isClassName name = false)
    (hsingle : name ∉ singleRunNames) (hsec : name ≠ REPORT_NAME_SECTIONS)
    (hteach : name ∈ teacherReportNames) :
    RUN_PLAN_get cfg name = runs_teacher_reports_from_map cfg := by
  unfold RUN_PLAN_get
  rw [if_neg, if_neg hsingle, if_neg hsec, if_pos hteach]
  intro hmem
  have h2 := (List.mem_filter.mp hmem).2
  rw [hsw] at h2
  exact Bool.noConfusion h2

/-- C6 amended: for each of the four teacher reports, the run plan contains
exactly one invocation per selected level that has both a non-empty level
code and a non-empty subject mapping, in configuration order — except that
when no selected level qualifies, the plan is a single placeholder
invocation with empty level and subject codes. -/
theorem C6_teacher_run_plan :
    ∀ cfg name, name ∈ teacherReportNames →
      (RUN_PLAN_get cfg name =
        if teacherRunsClaimed cfg = [] then [("", "")] else teacherRunsClaimed cfg)
      ∧ (∀ c su, ((c, su) ∈ teacherRunsClaimed cfg ↔
          ∃ lv, lv ∈ cfg.levels ∧ lv.code = c ∧ c ≠ ""
            ∧ (alistGet cfg.subjectMap c).getD "" = su ∧ su ≠ "")) := by
  intro cfg name hname
  have hsw : isClassName name = false := by fin_cases hname <;> rfl
  have hsingle : name ∉ singleRunNames := by fin_cases hname <;> decide
  have hsec : name ≠ REPORT_NAME_SECTIONS := by fin_cases hname <;> decide
  constructor
  · rw [RUN_PLAN_teacher cfg name hsw hsingle hsec hname]
    rfl
  · intro c su
    unfold teacherRunsClaimed
    rw [List.mem_filterMap]
    constructor
    · rintro ⟨lv, hlv, hout⟩
      by_cases hc : lv.code ≠ "" ∧ (alistGet cfg.subjectMap lv.code).getD "" ≠ ""
      · rw [if_pos hc] at hout
        injection hout with h1
        injection h1 with hcode hsubj
        exact ⟨lv, hlv, hcode, hcode ▸ hc.1, hcode ▸ hsubj, hsubj ▸ hc.2⟩
      · rw [if_neg hc] at hout
        exact Option.noConfusion hout
    · rintro ⟨lv, hlv, hcode, hcne, hsubj, hsune⟩
      subst hcode
      refine ⟨lv, hlv, ?_⟩
      rw [if_pos ⟨hcne, fun hbad => hsune (hsubj.symm.trans hbad)⟩]
      rw [hsubj]

/-- C6 witness: two selected levels, one mapped, one not — the plan is the
single mapped invocation, matching the amended statement. -/
theorem C6_witness :
    (RUN_PLAN_get ⟨[], true, [⟨"04"⟩, ⟨"05"⟩], [("04", "uuid-4")], []⟩
        "Teacher Assignment Log Quiz" =
      if teacherRunsClaimed ⟨[], true, [⟨"04"⟩, ⟨"05"⟩], [("04", "uuid-4")], []⟩ = []
      then [("", "")]
      else teacherRunsClaimed ⟨[], true, [⟨"04"⟩, ⟨"05"⟩], [("04", "uuid-4")], []⟩)
    ∧ RUN_PLAN_get ⟨[], true, [⟨"04"⟩, ⟨"05"⟩], [("04", "uuid-4")], []⟩
        "Teacher Assignment Log Quiz" = [("04", "uuid-4")] :=
  ⟨(C6_teacher_run_plan ⟨[], true, [⟨"04"⟩, ⟨"05"⟩], [("04", "uuid-4")], []⟩
      "Teacher Assignment Log Quiz" (by decide)).1, by decide⟩

def isManifestEvent : Event → Bool
  | Event.manifestAttempt _ => true
  | _ => false

def attemptOf : Event → Option (String × String × String)
  | Event.attempt n c su => some (n, c, su)
  | _ => none

/-- The report a loop event belongs to, when any. -/
def eventReport : Event → Option String
  | Event.skippedClassDisabled n => some n
  | Event.reportNotFound n => some n
  | Event.attempt n _ _ => some n
  | Event.bodyEff n _ => some n
  | Event.invocationError n _ => some n
  | _ => none

theorem filterMap_none {α γ : Type} (l : List α) :
    l.filterMap (fun _ => (none : Option γ)) = [] := by
  induction l with
  | nil => rfl
  | cons a rest ih => simpa [List.filterMap_cons] using ih

theorem filterMap_bind {α β γ : Type} (l : List α) (g : α → List β) (f : β → Option γ) :
    (l.bind g).filterMap f = l.bind (fun a => (g a).filterMap f) := by
  induction l with
  | nil => rfl
  | cons a rest ih =>
    show (g a ++ rest.bind g).filterMap f
      = (g a).filterMap f ++ rest.bind (fun a => (g a).filterMap f)
    rw [List.filterMap_append, ih]

theorem bind_congr_fun {α β : Type} (l : List α) (f g : α → List β)
    (h : ∀ a ∈ l, f a = g a) : l.bind f = l.bind g := by
  induction l with
  | nil => rfl
  | cons a rest ih =>
    show f a ++ rest.bind f = g a ++ rest.bind g
    rw [h a (List.mem_cons_self a rest),
      ih (fun b hb => h b (List.mem_cons_of_mem a hb))]

theorem runInvocation_attempts
    (body : String → String → String → List BodyEff × Option String)
    (n c su : String) : (runInvocation body n c su).filterMap attemptOf = [(n, c, su)] := by
  unfold runInvocation
  rw [List.filterMap_cons]
  rw [show attemptOf (Event.attempt n c su) = some (n, c, su) from rfl]
  rw [List.filterMap_append]
  rw [List.filterMap_map]
  rw [show ((attemptOf ∘ Event.bodyEff n) : BodyEff → Option (String × String × String))
      = fun _ => none from rfl]
  rw [filterMap_none]
  cases (body n c su).2 with
  | none => rfl
  | some e => rfl

theorem bind_runInvocation
    (body : String → String → String → List BodyEff × Option String) (name : String) :
    ∀ l : List (String × String),
      l.bind (fun p => (runInvocation body name p.1 p.2).filterMap attemptOf)
        = l.map (fun p => (name, p.1, p.2)) := by
  intro l
  induction l with
  | nil => rfl
  | cons p rest ih =>
    show (runInvocation body name p.1 p.2).filterMap attemptOf
        ++ rest.bind (fun p => (runInvocation body name p.1 p.2).filterMap attemptOf)
      = (name, p.1, p.2) :: rest.map (fun p => (name, p.1, p.2))
    rw [runInvocation_attempts, ih]
    rfl

theorem runReport_attempts (cfg : Ctx)
    (body : String → String → String → List BodyEff × Option String) (name : String) :
    (runReport cfg body name).filterMap attemptOf =
      (if name ∈ CLASS_REPORTS cfg ∧ cfg.NEED_CLASS = false then []
       else if name = SQR_NAME ∧ cfg.NEED_CLASS = false then []
       else if name ∈ cfg.catalogNames then
         (RUN_PLAN_get cfg name).map (fun p => (name, p.1, p.2))
       else []) := by
  unfold runReport
  split
  · rfl
  · split
    · rfl
    · split
      · rw [filterMap_bind, bind_runInvocation]
      · rfl

theorem runInvocation_events
    (body : String → String → String → List BodyEff × Option String) (n c su : String) :
    ∀ e ∈ runInvocation body n c su, eventReport e = some n := by
  intro e he
  unfold runInvocation at he
  rcases List.mem_cons.mp he with rfl | h2
  · rfl
  · rcases List.mem_append.mp h2 with h3 | h3
    · obtain ⟨eff, _, rfl⟩ := List.mem_map.mp h3
      rfl
    · cases hb : (body n c su).2 with
      | none => rw [hb] at h3; simp at h3
      | some err =>
        rw [hb] at h3
        rw [List.mem_singleton] at h3
        subst h3
        rfl

theorem runReport_events (cfg : Ctx)
    (body : String → String → String → List BodyEff × Option String) (name : String) :
    ∀ e ∈ runReport cfg body name, eventReport e = some name := by
  intro e he
  unfold runReport at he
  split at he
  · rw [List.mem_singleton] at he; subst he; rfl
  · split at he
    · rw [List.mem_singleton] at he; subst he; rfl
    · split at he
      · obtain ⟨p, hp, hin⟩ := List.mem_bind.mp he
        exact runInvocation_events body name p.1 p.2 e hin
      · rw [List.mem_singleton] at he; subst he; rfl

theorem discoveryEvents_cases (cfg : Ctx) :
    ∀ e ∈ discoveryEvents cfg,
      e = Event.classDisabledInfo ∨ e = Event.noSectionsWarn ∨ e = Event.sectionsDiscovered := by
  intro e he
  unfold discoveryEvents at he
  split at he
  · split at he
    · rw [List.mem_singleton] at he; subst he; exact Or.inr (Or.inl rfl)
    · rw [List.mem_singleton] at he; subst he; exact Or.inr (Or.inr rfl)
  · rw [List.mem_singleton] at he; subst he; exact Or.inl rfl

theorem discovery_attempts (cfg : Ctx) : (discoveryEvents cfg).filterMap attemptOf = [] := by
  unfold discoveryEvents
  split
  · split <;> rfl
  · rfl

/-- C1: whatever the invocation bodies do — including raising an exception,
which the per-invocation `except` absorbs — the run attempts exactly the
planned invocations, in order, and after the loop exactly one attempt is
made to write the run manifest (successful or not), with no manifest write
anywhere before it. -/
theorem C1_invocation_isolation_and_manifest :
    ∀ cfg (body : String → String → String → List BodyEff × Option String) (ok : Bool),
      (mainRun cfg body ok).filterMap attemptOf = plannedInvocations cfg
      ∧ ∃ pre, mainRun cfg body ok = pre ++ [Event.manifestAttempt ok]
          ∧ ∀ e ∈ pre, isManifestEvent e = false := by
  intro cfg body ok
  constructor
  · unfold mainRun plannedInvocations
    rw [List.filterMap_append, List.filterMap_append]
    rw [show ([Event.manifestAttempt ok].filterMap attemptOf) = [] from rfl]
    rw [discovery_attempts, List.append_nil, List.nil_append]
    rw [filterMap_bind]
    exact bind_congr_fun _ _ _ (fun n _ => runReport_attempts cfg body n)
  · refine ⟨discoveryEvents cfg ++ (loopReports cfg).bind (runReport cfg body), rfl, ?_⟩
    intro e he
    rcases List.mem_append.mp he with h1 | h2
    · rcases discoveryEvents_cases cfg e h1 with rfl | rfl | rfl <;> rfl
    · obtain ⟨n, hn, hin⟩ := List.mem_bind.mp h2
      have htag := runReport_events cfg body n e hin
      cases e with
      | manifestAttempt b => exact Option.noConfusion htag
      | classDisabledInfo => rfl
      | noSectionsWarn => rfl
      | sectionsDiscovered => rfl
      | skippedClassDisabled r => rfl
      | reportNotFound r => rfl
      | attempt r c su => rfl
      | bodyEff r eff => rfl
      | invocationError r m => rfl

/-- C7: with class reports disabled, every catalog report named "Class ..."
and the Student Quiz Performance Report are skipped outright: a dedicated
skip line is logged, no invocation of them is attempted, none of their body
effects (file, sidecar, manifest entry) occur, and the no-sections warning —
the other reason class outputs can be missing — is never logged. -/
theorem C7_class_reports_gated :
    ∀ cfg (body : String → String → String → List BodyEff × Option String) (ok : Bool) name,
      cfg.NEED_CLASS = false →
      name ∈ loopReports cfg →
      (name ∈ CLASS_REPORTS cfg ∨ name = SQR_NAME) →
      Event.skippedClassDisabled name ∈ mainRun cfg body ok
      ∧ (∀ c su, Event.attempt name c su ∉ mainRun cfg body ok)
      ∧ (∀ eff, Event.bodyEff name eff ∉ mainRun cfg body ok)
      ∧ Event.noSectionsWarn ∉ mainRun cfg body ok := by
  intro cfg body ok name hnc hloop hgate
  have hrr : runReport cfg body name = [Event.skippedClassDisabled name] := by
    unfold runReport
    rcases hgate with hmem | heq
    · rw [if_pos ⟨hmem, hnc⟩]
    · subst heq
      have hnot : SQR_NAME ∉ CLASS_REPORTS cfg := by
        intro hmem
        have h2 := (List.mem_filter.mp hmem).2
        exact absurd h2 (by decide)
      rw [if_neg (fun hand => hnot hand.1), if_pos ⟨rfl, hnc⟩]
  refine ⟨?_, ?_, ?_, ?_⟩
  · exact List.mem_append.mpr (Or.inl (List.mem_append.mpr (Or.inr
      (List.mem_bind.mpr ⟨name, hloop, by rw [hrr]; exact List.mem_singleton.mpr rfl⟩))))
  · intro c su hmem
    rcases List.mem_append.mp hmem with h1 | h2
    · rcases List.mem_append.mp h1 with h1a | h1b
      · rcases discoveryEvents_cases cfg _ h1a with h | h | h <;> exact Event.noConfusion h
      · obtain ⟨n2, hn2, hin⟩ := List.mem_bind.mp h1b
        have htag := runReport_events cfg body n2 _ hin
        rw [show eventReport (Event.attempt name c su) = some name from rfl] at htag
        injection htag with hh
        subst hh
        rw [hrr, List.mem_singleton] at hin
        exact Event.noConfusion hin
    · rw [List.mem_singleton] at h2
      exact Event.noConfusion h2
  · intro eff hmem
    rcases List.mem_append.mp hmem with h1 | h2
    · rcases List.mem_append.mp h1 with h1a | h1b
      · rcases discoveryEvents_cases cfg _ h1a with h | h | h <;> exact Event.noConfusion h
      · obtain ⟨n2, hn2, hin⟩ := List.mem_bind.mp h1b
        have htag := runReport_events cfg body n2 _ hin
        rw [show eventReport (Event.bodyEff name eff) = some name from rfl] at htag
        injection htag with hh
        subst hh
        rw [hrr, List.mem_singleton] at hin
        exact Event.noConfusion hin
    · rw [List.mem_singleton] at h2
      exact Event.noConfusion h2
  · intro hmem
    rcases List.mem_append.mp hmem with h1 | h2
    · rcases List.mem_append.mp h1 with h1a | h1b
      · unfold discoveryEvents at h1a
        rw [hnc] at h1a
        simp at h1a
      · obtain ⟨n2, hn2, hin⟩ := List.mem_bind.mp h1b
        have htag := runReport_events cfg body n2 _ hin
        exact Option.noConfusion htag
    · rw [List.mem_singleton] at h2
      exact Event.noConfusion h2

/-- C7 witness: a catalog with one "Class ..." report, class reports
disabled. -/
theorem C7_witness :
    Event.skippedClassDisabled "Class Foo" ∈
      mainRun ⟨["Class Foo"], false, [], [], []⟩ (fun _ _ _ => ([], none)) true
    ∧ (∀ c su, Event.attempt "Class Foo" c su ∉
        mainRun ⟨["Class Foo"], false, [], [], []⟩ (fun _ _ _ => ([], none)) true)
    ∧ (∀ eff, Event.bodyEff "Class Foo" eff ∉
        mainRun ⟨["Class Foo"], false, [], [], []⟩ (fun _ _ _ => ([], none)) true)
    ∧ Event.noSectionsWarn ∉
        mainRun ⟨["Class Foo"], false, [], [], []⟩ (fun _ _ _ => ([], none)) true :=
  C7_class_reports_gated ⟨["Class Foo"], false, [], [], []⟩ (fun _ _ _ => ([], none)) true
    "Class Foo" rfl (by decide) (Or.inl (by decide))

/-- C1 witness: one catalog report and a body that always raises — the
attempt list still equals the plan and the manifest write is attempted
exactly once, at the end. -/
theorem C1_witness :
    (mainRun ⟨["School Logins Report"], false, [], [], []⟩
        (fun _ _ _ => ([], some "boom")) true).filterMap attemptOf
      = plannedInvocations ⟨["School Logins Report"], false, [], [], []⟩
    ∧ ∃ pre, mainRun ⟨["School Logins Report"], false, [], [], []⟩
          (fun _ _ _ => ([], some "boom")) true = pre ++ [Event.manifestAttempt true]
        ∧ ∀ e ∈ pre, isManifestEvent e = false :=
  C1_invocation_isolation_and_manifest ⟨["School Logins Report"], false, [], [], []⟩
    (fun _ _ _ => ([], some "boom")) true

/-- The character classes occurring in a scientific-notation match. -/
def sciChar (c : Char) : Bool :=
  c.isDigit || c == '.' || c == 'E' || c == 'e' || c == '+' || c == '-'

theorem allDigits1_chars :
    ∀ cs, allDigits1 cs = true → ∀ c ∈ cs, sciChar c = true := by
  intro cs h c hc
  simp only [allDigits1, Bool.and_eq_true, List.all_eq_true] at h
  simp only [sciChar, Bool.or_eq_true]
  exact Or.inl (Or.inl (Or.inl (Or.inl (Or.inl (h.2 c hc)))))

theorem sciAfterE_chars :
    ∀ cs, sciAfterE cs = true → ∀ c ∈ cs, sciChar c = true := by
  intro cs h c hc
  cases cs with
  | nil => simp at hc
  | cons c2 rest =>
    rw [sciAfterE] at h
    split at h
    · rcases List.mem_cons.mp hc with rfl | h2
      · rename_i hsgn
        rcases hsgn with rfl | rfl <;> rfl
      · exact allDigits1_chars rest h c h2
    · exact allDigits1_chars (c2 :: rest) h c hc

theorem sciAfterFrac_chars :
    ∀ cs, sciAfterFrac cs = true → ∀ c ∈ cs, sciChar c = true := by
  intro cs h c hc
  cases cs with
  | nil => simp at hc
  | cons c2 rest =>
    rw [sciAfterFrac] at h
    split at h
    · rcases List.mem_cons.mp hc with rfl | h2
      · rename_i he
        rcases he with rfl | rfl <;> rfl
      · exact sciAfterE_chars rest h c h2
    · exact Bool.noConfusion h

theorem sciAfterD1_chars :
    ∀ cs, sciAfterD1 cs = true → ∀ c ∈ cs, sciChar c = true := by
  intro cs h c hc
  cases cs with
  | nil => simp at hc
  | cons c2 rest =>
    rw [sciAfterD1] at h
    split at h
    case isTrue hdot =>
      split at h
      case isTrue => exact Bool.noConfusion h
      case isFalse =>
        rcases List.mem_cons.mp hc with rfl | h2
        · rw [hdot]; decide
        · have hsplit := List.takeWhile_append_dropWhile (p := Char.isDigit) (l := rest)
          rw [← hsplit] at h2
          rcases List.mem_append.mp h2 with h3 | h3
          · simp only [sciChar, Bool.or_eq_true]
            exact Or.inl (Or.inl (Or.inl (Or.inl (Or.inl (List.mem_takeWhile_imp h3)))))
          · exact sciAfterFrac_chars _ h c h3
    case isFalse => exact sciAfterFrac_chars (c2 :: rest) h c hc

theorem sciShape_chars :
    ∀ s, sciShape s = true → ∀ c ∈ s.data, sciChar c = true := by
  intro s h c hc
  rw [sciShape] at h
  split at h
  · exact Bool.noConfusion h
  · have hsplit := List.takeWhile_append_dropWhile (p := Char.isDigit) (l := s.data)
    rw [← hsplit] at hc
    rcases List.mem_append.mp hc with h3 | h3
    · simp only [sciChar, Bool.or_eq_true]
      exact Or.inl (Or.inl (Or.inl (Or.inl (Or.inl (List.mem_takeWhile_imp h3)))))
    · exact sciAfterD1_chars _ h c h3

theorem sciChar_not_space : ∀ c, sciChar c = true → pyIsSpace c = false := by
  intro c h
  by_contra hs
  rw [Bool.not_eq_false] at hs
  simp only [pyIsSpace, Bool.or_eq_true, beq_iff_eq] at hs
  rcases hs with ((((rfl | rfl) | rfl) | rfl) | rfl) | rfl <;> exact absurd h (by decide)

theorem sciChar_not_pipe : ∀ c, sciChar c = true → c ≠ '|' := by
  intro c h he
  subst he
  exact absurd h (by decide)

theorem sciChar_not_mojibake : ∀ c, sciChar c = true → c ≠ Char.ofNat 195 := by
  intro c h he
  subst he
  exact absurd h (by decide)

theorem dropWhile_of_none {p : Char → Bool} :
    ∀ cs : List Char, (∀ c ∈ cs, p c = false) → cs.dropWhile p = cs := by
  intro cs h
  cases cs with
  | nil => rfl
  | cons c rest =>
    rw [List.dropWhile_cons, if_neg]
    rw [h c (List.mem_cons_self c rest)]
    simp

theorem pyStrip_id : ∀ s : String, (∀ c ∈ s.data, pyIsSpace c = false) → pyStrip s = s := by
  intro s h
  unfold pyStrip
  rw [dropWhile_of_none s.data h]
  rw [dropWhile_of_none s.data.reverse (fun c hc => h c (List.mem_reverse.mp hc))]
  rw [List.reverse_reverse]

theorem replaceDoublePipes_id :
    ∀ n cs, cs.length ≤ n → (∀ c ∈ cs, c ≠ '|') → replaceDoublePipes cs = cs := by
  intro n
  induction n with
  | zero =>
    intro cs hlen hp
    cases cs with
    | nil => rw [replaceDoublePipes]
    | cons c rest => simp only [List.length_cons] at hlen; omega
  | succ n ih =>
    intro cs hlen hp
    cases cs with
    | nil => rw [replaceDoublePipes]
    | cons c rest =>
      cases rest with
      | nil => rw [replaceDoublePipes]
      | cons c2 rest2 =>
        simp only [List.length_cons] at hlen
        rw [replaceDoublePipes, if_neg]
        · rw [ih (c2 :: rest2) (by simp only [List.length_cons]; omega)
            (fun d hd => hp d (List.mem_cons_of_mem c hd))]
        · rintro ⟨h1, h2⟩
          exact hp c (List.mem_cons_self c _) h1

theorem stripPipe_id : ∀ cs, (∀ c ∈ cs, c ≠ '|') → stripPipe cs = cs := by
  intro cs h
  unfold stripPipe
  have hb : ∀ c ∈ cs, (c == '|') = false := fun c hc => beq_eq_false_iff_ne.mpr (h c hc)
  rw [dropWhile_of_none cs hb]
  rw [dropWhile_of_none cs.reverse (fun c hc => hb c (List.mem_reverse.mp hc))]
  rw [List.reverse_reverse]

theorem strip_double_pipes_id :
    ∀ s : String, (∀ c ∈ s.data, sciChar c = true) → strip_double_pipes s = s := by
  intro s h
  unfold strip_double_pipes
  have hs1 : pyStrip s = s := pyStrip_id s (fun c hc => sciChar_not_space c (h c hc))
  rw [hs1]
  have hs2 : replaceDoublePipes s.data = s.data :=
    replaceDoublePipes_id s.data.length s.data le_rfl (fun c hc => sciChar_not_pipe c (h c hc))
  rw [hs2]
  have hmk : String.mk s.data = s := rfl
  rw [hmk, hs1]
  rw [stripPipe_id s.data (fun c hc => sciChar_not_pipe c (h c hc))]

theorem containsChar_false :
    ∀ s : String, (∀ c ∈ s.data, sciChar c = true) → containsChar s (Char.ofNat 195) = false := by
  intro s h
  unfold containsChar
  rw [Bool.eq_false_iff]
  intro hc
  rw [List.contains_eq_any_beq] at hc
  simp only [List.any_eq_true, beq_iff_eq] at hc
  obtain ⟨c, hcm, rfl⟩ := hc
  exact sciChar_not_mojibake _ (h _ hcm) rfl

/-- C9: `excel_text_guard` wraps exactly the strings matching the bare
scientific-notation shape in an explicit-text formula `="..."`, leaves all
other strings unchanged, and for a matching string the full `clean_value`
pipeline writes exactly that formula (the preceding trim, mojibake and pipe
steps cannot touch a matching string). -/
theorem C9_sci_notation_guard :
    (∀ s, sciShape s = true → excel_text_guard s = "=" ++ quoteStr ++ s ++ quoteStr)
    ∧ (∀ s, sciShape s = false → excel_text_guard s = s)
    ∧ (∀ s, sciShape s = true →
        clean_value (Json.str s) = Json.str ("=" ++ quoteStr ++ s ++ quoteStr)) := by
  refine ⟨?_, ?_, ?_⟩
  · intro s h
    unfold excel_text_guard
    rw [if_pos h]
  · intro s h
    unfold excel_text_guard
    rw [if_neg (by rw [h]; simp)]
  · intro s h
    have hch := sciShape_chars s h
    have hstrip : pyStrip s = s := pyStrip_id s (fun c hc => sciChar_not_space c (hch c hc))
    have hcontains : containsChar s (Char.ofNat 195) = false := containsChar_false s hch
    show Json.str (excel_text_guard (strip_double_pipes
      (if (containsChar (pyStrip s) (Char.ofNat 195)
            && !containsChar (pyStrip s) (Char.ofNat 65533)) = true
       then mojibakeRepair (pyStrip s) else pyStrip s)))
      = Json.str ("=" ++ quoteStr ++ s ++ quoteStr)
    rw [hstrip, hcontains]
    rw [if_neg (by simp)]
    rw [strip_double_pipes_id s hch]
    unfold excel_text_guard
    rw [if_pos h]

/-- C9 witness: `"5E2"` is wrapped into the explicit-text formula, and a
non-matching identifier is left alone. -/
theorem C9_witness :
    clean_value (Json.str "5E2") = Json.str ("=" ++ quoteStr ++ "5E2" ++ quoteStr)
    ∧ excel_text_guard "ABC123" = "ABC123" :=
  ⟨C9_sci_notation_guard.2.2 "5E2" (by rfl), C9_sci_notation_guard.2.1 "ABC123" (by rfl)⟩

end HeyMathPortal
